import Mathlib

/-!
Verification development for the smart-patch repository.

Lines of text are modelled as `List Char` (Python `str.split('\n')` segments);
whole contents are `List Char` as well.  Every definition is a direct shallow
embedding of the corresponding Python function, translated from the source
modules `patch_applicator.py`, `line_number_corrector.py`, `patch_analyzer.py`
and `smart_patch_processor.py`.
-/

namespace SmartPatch

/-- Convert a string literal to its character list. -/
def str (s : String) : List Char := s.data

abbrev Line := List Char

/-- Python `\s` on the ASCII range (the inputs analysed here are ASCII). -/
def isPySpace (c : Char) : Bool :=
  c = ' ' || c = '\t' || c = '\n' || c = '\r' || c = '\x0b' || c = '\x0c'

/-- Python `str.lstrip()`. -/
def pyLStrip (l : Line) : Line := l.dropWhile isPySpace

/-- Python `str.strip()`. -/
def pyStrip (l : Line) : Line :=
  ((l.dropWhile isPySpace).reverse.dropWhile isPySpace).reverse

/-- Python `s.startswith(p)`. -/
def startsWithL : Line → Line → Bool
  | [], _ => true
  | _ :: _, [] => false
  | p :: ps, c :: cs => if p = c then startsWithL ps cs else false

/-- Python `s.startswith((p1, ..., pn))`. -/
def startsWithAny (ps : List Line) (l : Line) : Bool :=
  ps.any (fun p => startsWithL p l)

/-- Python `s.endswith(p)`. -/
def endsWithL (p l : Line) : Bool := startsWithL p.reverse l.reverse

/-- Python `p in s` (substring containment). -/
def containsSub (p : Line) : Line → Bool
  | [] => startsWithL p []
  | c :: cs => startsWithL p (c :: cs) || containsSub p cs

/-- Python `s.split('\n')` (never returns an empty list). -/
def splitNl : List Char → List Line
  | [] => [[]]
  | c :: cs =>
    match splitNl cs with
    | [] => [[]]
    | h :: t => if c = '\n' then [] :: h :: t else (c :: h) :: t

/-- Python `'\n'.join(lines)`. -/
def joinNl : List Line → List Char
  | [] => []
  | [l] => l
  | l :: ls => l ++ '\n' :: joinNl ls

def digitChar : Nat → Char
  | 0 => '0' | 1 => '1' | 2 => '2' | 3 => '3' | 4 => '4'
  | 5 => '5' | 6 => '6' | 7 => '7' | 8 => '8' | _ => '9'

/-- Decimal digits, most significant first (fuel `n + 1` suffices since the
argument shrinks by a factor of ten each step). -/
def natDigitsGo : Nat → Nat → List Char → List Char
  | 0, _, acc => acc
  | fuel + 1, n, acc =>
    if n < 10 then digitChar n :: acc
    else natDigitsGo fuel (n / 10) (digitChar (n % 10) :: acc)

/-- Decimal rendering of a natural number (for rebuilding header text). -/
def natDigits (n : Nat) : List Char := natDigitsGo (n + 1) n []

/-- Parse a maximal run of decimal digits; returns the value, the number of
digits consumed and the rest.  Mirrors a committed `\d+` regex item. -/
def parseDigits : Line → Nat → Nat → (Nat × Nat × Line)
  | [], acc, k => (acc, k, [])
  | c :: cs, acc, k =>
    if c.isDigit then parseDigits cs (acc * 10 + (c.toNat - '0'.toNat)) (k + 1)
    else (acc, k, c :: cs)

/-- Skip a `\s*` regex item. -/
def skipSpaces (l : Line) : Line := l.dropWhile isPySpace

/-- A committed literal regex item: consume `p` or fail. -/
def matchLit (p l : Line) : Option Line :=
  if startsWithL p l then some (l.drop p.length) else none

/-- A committed `\d+` regex item. -/
def matchNum (l : Line) : Option (Nat × Line) :=
  match parseDigits l 0 0 with
  | (v, k, rest) => if k = 0 then none else some (v, rest)

/-- A committed `(?:,(\d+))?` regex item (a comma not followed by digits makes
the whole header regex fail, since `\s*` cannot consume the comma). -/
def matchOptCommaNum : Line → Option (Option Nat × Line)
  | ',' :: cs => (matchNum cs).map (fun p => (some p.1, p.2))
  | l => some (none, l)

/-! ## `patch_applicator.py`: hunk model and unified-diff parsing -/

/-- A parsed hunk, as built by `PatchApplicator._parse_hunk_header`
(`old_start`/`new_start` already converted to 0-based, hence `Int`). -/
structure Hunk where
  old_start : Int
  old_count : Nat
  new_start : Int
  new_count : Nat
  lines : List Line
deriving DecidableEq

/-- `PatchApplicator._parse_hunk_header`: anchored match of
`@@\s*-(\d+)(?:,(\d+))?\s*\+(\d+)(?:,(\d+))?\s*@@` on the stripped line. -/
def parseHunkHeader (l : Line) : Option Hunk := do
  let r ← matchLit (str "@@") l
  let r ← matchLit (str "-") (skipSpaces r)
  let (a, r) ← matchNum r
  let (b, r) ← matchOptCommaNum r
  let r ← matchLit (str "+") (skipSpaces r)
  let (c, r) ← matchNum r
  let (d, r) ← matchOptCommaNum r
  let _ ← matchLit (str "@@") (skipSpaces r)
  pure { old_start := (a : Int) - 1, old_count := b.getD 1,
         new_start := (c : Int) - 1, new_count := d.getD 1, lines := [] }

/-- Metadata prefixes skipped by the applicator's parser. -/
def metaPrefixes : List Line :=
  [str "--- ", str "+++ ", str "diff --git", str "index ",
   str "new file", str "deleted file"]

/-- Body collection loop of `_parse_unified_diff`: consume lines until the
next `@@` header, keeping only `+`/`-`/` `-prefixed or blank lines. -/
def takeHunkBody : List Line → (List Line × List Line)
  | [] => ([], [])
  | l :: ls =>
    if startsWithL (str "@@") (pyStrip l) then ([], l :: ls)
    else
      let p := takeHunkBody ls
      if startsWithAny [str "+", str "-", str " "] l || pyStrip l = [] then
        (l :: p.1, p.2)
      else (p.1, p.2)

/-- Main loop of `PatchApplicator._parse_unified_diff`.  The loop advances the
line index monotonically, so fuel equal to the number of lines never runs out
(`takeHunkBody` hands back a suffix of its input, `takeHunkBody_rest_le`). -/
def parseLoopF : Nat → List Line → List Hunk
  | 0, _ => []
  | _, [] => []
  | fuel + 1, l :: ls =>
    let s := pyStrip l
    if startsWithAny metaPrefixes s then parseLoopF fuel ls
    else if startsWithL (str "@@") s then
      match parseHunkHeader s with
      | some h =>
        let p := takeHunkBody ls
        { h with lines := p.1 } :: parseLoopF fuel p.2
      | none => parseLoopF fuel ls
    else parseLoopF fuel ls

/-- `PatchApplicator._parse_unified_diff`. -/
def parseUnifiedDiff (diff : List Char) : List Hunk :=
  parseLoopF (splitNl diff).length (splitNl diff)

/-! ## `patch_applicator.py`: file-structure analysis -/

inductive Lang
  | python | javascript | php | java | unknown
deriving DecidableEq

/-- `PatchApplicator._detect_language`. -/
def detectLanguage (content : List Char) : Lang :=
  if containsSub (str "<?php") content then .php
  else if containsSub (str "class ") content && containsSub (str "function ") content
          && containsSub (str "\x7b") content then .javascript
  else if containsSub (str "public class") content || containsSub (str "import java") content then .java
  else if containsSub (str "def ") content && containsSub (str "class ") content then .python
  else .unknown

/-- `PatchApplicator._is_class_line` (on the stripped line). -/
def isClassLine (l : Line) : Lang → Bool
  | .python => startsWithL (str "class ") l
  | .javascript => startsWithL (str "class ") l || (containsSub (str "\x7b") l && containsSub (str "class ") l)
  | .php => startsWithL (str "class ") l || containsSub (str "class ") l
  | .java => containsSub (str "class ") l && (containsSub (str "public") l || containsSub (str "private") l)
  | .unknown => startsWithL (str "class ") l

/-- `PatchApplicator._is_function_line` (on the stripped line). -/
def isFunctionLine (l : Line) : Lang → Bool
  | .python => startsWithL (str "def ") l
  | .javascript =>
      startsWithL (str "function ") l || startsWithL (str "async ") l
        || containsSub (str "function(") l
        || (containsSub (str ") \x7b") l && containsSub (str "=") l)
  | .php => containsSub (str "function ") l
  | .java =>
      containsSub (str "(") l && containsSub (str ")") l
        && (containsSub (str "public") l || containsSub (str "private") l
              || containsSub (str "protected") l)
  | .unknown => startsWithL (str "def ") l || containsSub (str "function ") l

/-- `PatchApplicator._is_main_block`. -/
def isMainBlock (l : Line) : Lang → Bool
  | .python => containsSub (str "if __name__") l && containsSub (str "__main__") l
  | .javascript => containsSub (str "require.main === module") l
  | _ => containsSub (str "if __name__") l || containsSub (str "main(") l

/-- Python `\w` on the ASCII range. -/
def isWordChar (c : Char) : Bool := c.isAlphanum || c = '_'

/-- Try the regex `class\s+(\w+)` anchored at the current position. -/
def matchClassNameAt (l : Line) : Option Line := do
  let r ← matchLit (str "class") l
  match r with
  | [] => none
  | c :: cs =>
    if isPySpace c then
      match (skipSpaces cs).takeWhile isWordChar with
      | [] => none
      | w => some w
    else none

/-- `PatchApplicator._extract_class_name`: `re.search(r'class\s+(\w+)', line)`
(every language uses the same pattern). -/
def searchClassName : Line → Option Line
  | [] => none
  | c :: cs =>
    match matchClassNameAt (c :: cs) with
    | some w => some w
    | none => searchClassName cs

/-- One entry of `structure['classes']`. -/
structure ClassInfo where
  name : Line
  start_line : Nat
  end_line : Option Int
  indent : Nat
deriving DecidableEq

structure MainInfo where
  start_line : Nat
  indent : Nat
deriving DecidableEq

/-- The `structure` dictionary built by `_analyze_file_structure`
(the `functions` list is omitted: no later code reads it). -/
structure FileStructure where
  classes : List ClassInfo
  main_block : Option MainInfo
  lines : List Line
  language : Lang

def modifyAt (f : ClassInfo → ClassInfo) : List ClassInfo → Nat → List ClassInfo
  | [], _ => []
  | c :: cs, 0 => f c :: cs
  | c :: cs, n + 1 => c :: modifyAt f cs n

/-- Loop body of `_analyze_file_structure`; the `Option Nat` is the index of
the class dict currently aliased by the Python variable `current_class`. -/
def structStep (lang : Lang) (st : List ClassInfo × Option Nat × Option MainInfo)
    (i : Nat) (line : Line) : List ClassInfo × Option Nat × Option MainInfo :=
  let classes := st.1
  let current := st.2.1
  let main := st.2.2
  let stripped := pyStrip line
  let indent := (line.takeWhile isPySpace).length
  if isClassLine stripped lang then
    let classes' :=
      match current with
      | some idx => modifyAt (fun c => { c with end_line := some ((i : Int) - 1) }) classes idx
      | none => classes
    match searchClassName stripped with
    | some nm => (classes' ++ [⟨nm, i, none, indent⟩], some classes'.length, main)
    | none => (classes', current, main)
  else if isFunctionLine stripped lang then
    (classes, current, main)
  else if isMainBlock stripped lang then
    let main' := some (⟨i, indent⟩ : MainInfo)
    match current with
    | some idx =>
      match classes.get? idx with
      | some c =>
        if c.end_line = none then
          (modifyAt (fun c => { c with end_line := some ((i : Int) - 1) }) classes idx, none, main')
        else (classes, current, main')
      | none => (classes, current, main')
    | none => (classes, none, main')
  else (classes, current, main)

/-- `PatchApplicator._analyze_file_structure`. -/
def analyzeFileStructure (content : List Char) : FileStructure :=
  let lines := splitNl content
  let lang := detectLanguage content
  let st := lines.enum.foldl (fun st p => structStep lang st p.1 p.2)
      (([] : List ClassInfo), (none : Option Nat), (none : Option MainInfo))
  let classes :=
    match st.2.1 with
    | some idx =>
      match st.1.get? idx with
      | some c =>
        if c.end_line = none then
          modifyAt (fun c => { c with end_line := some ((lines.length : Int) - 1) }) st.1 idx
        else st.1
      | none => st.1
    | none => st.1
  ⟨classes, st.2.2, lines, lang⟩

/-! ## `patch_applicator.py`: hunk application -/

/-- First index whose element satisfies `p` (a Python `for i, line in
enumerate(...)` search loop). -/
def findIdxFrom (p : Line → Bool) : List Line → Nat → Option Nat
  | [], _ => none
  | l :: ls, i => if p l then some i else findIdxFrom p ls (i + 1)

/-- Context extraction inside `_correct_line_number`: stripped nonempty
text of ` `- and `-`-prefixed body lines. -/
def applCtxLines (h : Hunk) : List Line :=
  h.lines.filterMap (fun hl =>
    if startsWithL (str " ") hl || startsWithL (str "-") hl then
      let ctx := pyStrip hl.tail
      if ctx = [] then none else some ctx
    else none)

/-- `PatchApplicator._correct_line_number`. -/
def correctLineNumber (lines : List Line) (h : Hunk) : Nat :=
  if 0 ≤ h.old_start ∧ h.old_start < (lines.length : Int) then h.old_start.toNat
  else
    match applCtxLines h with
    | [] => lines.length
    | c0 :: crest =>
      match findIdxFrom (fun l => pyStrip l = c0) lines 0 with
      | some i => i
      | none =>
        match findIdxFrom
            (fun l => ((c0 :: crest).take 2).any (fun c => containsSub c (pyStrip l)))
            lines 0 with
        | some i => i
        | none => lines.length

/-- Body replay loop of `_apply_normal_hunk`: the cursor `idx` walks the
original lines; context copies-and-advances (or materialises the hunk text
past the end), remove advances, add inserts. -/
def replayHunk (lines : List Line) : List Line → Nat → List Line
  | [], idx => lines.drop idx
  | hl :: rest, idx =>
    match hl with
    | [] => replayHunk lines rest idx
    | op :: content =>
      if op = ' ' then
        if idx < lines.length then lines.getD idx [] :: replayHunk lines rest (idx + 1)
        else content :: replayHunk lines rest idx
      else if op = '-' then
        if idx < lines.length then replayHunk lines rest (idx + 1)
        else replayHunk lines rest idx
      else if op = '+' then content :: replayHunk lines rest idx
      else replayHunk lines rest idx

/-- `PatchApplicator._apply_normal_hunk`. -/
def applyNormalHunk (lines : List Line) (h : Hunk) (start : Nat) : List Line :=
  lines.take start ++ replayHunk lines h.lines start

/-- Python indexing guarded to the nonnegative range (all call sites stay in
range, see the loop bounds below). -/
def getLineI (lines : List Line) (i : Int) : Line :=
  if 0 ≤ i then lines.getD i.toNat [] else []

/-- The `end_line` value read through `class_info.get('end_line', len(lines))`
(the key always exists; by the time it is read it has been closed). -/
def classEnd (lines : List Line) (ci : ClassInfo) : Int :=
  ci.end_line.getD (lines.length : Int)

/-- The loop `for line_idx in range(class_start, min(class_end + 1, len(lines)))`
with the `line_idx < len(lines)` guard, as an `any`. -/
def scanClassLines (lines : List Line) (ci : ClassInfo) (test : Line → Bool) : Bool :=
  let stopI := min (classEnd lines ci + 1) (lines.length : Int)
  let n := if stopI ≤ (ci.start_line : Int) then 0 else (stopI - ci.start_line).toNat
  (List.range n).any (fun k =>
    let idx := ci.start_line + k
    idx < lines.length && test (lines.getD idx []))

/-- The class-scoring loop of `_apply_method_addition`. -/
def classScore (lines : List Line) (ctxs : List Line) (ci : ClassInfo) : Nat :=
  let stopI := min (classEnd lines ci + 1) (lines.length : Int)
  let n := if stopI ≤ (ci.start_line : Int) then 0 else (stopI - ci.start_line).toNat
  ctxs.foldl (fun score ctx =>
    (List.range n).foldl (fun s k =>
      let idx := ci.start_line + k
      if idx < lines.length then
        let lc := pyStrip (lines.getD idx [])
        if ctx = lc then s + 10
        else if containsSub ctx lc && ctx.length > 3 then s + 5
        else s
      else s) score) 0

/-- Context filter used by `_debug_context_match` (context lines only). -/
def debugCtxLines (h : Hunk) : List Line :=
  h.lines.filterMap (fun hl =>
    if startsWithL (str " ") hl then
      let ctx := pyStrip hl.tail
      if ctx = [] then none else some ctx
    else none)

/-- Inner search of `_debug_context_match`. -/
def debugGo (lines : List Line) (classes : List ClassInfo) : List Line → Option ClassInfo
  | [] => none
  | ctx :: rest =>
    if containsSub (str "def helper") ctx then
      match classes.find? (fun ci =>
          scanClassLines lines ci (fun l => containsSub (str "def helper") l)) with
      | some ci => some ci
      | none => debugGo lines classes rest
    else debugGo lines classes rest

/-- `PatchApplicator._debug_context_match`. -/
def debugContextMatch (lines : List Line) (h : Hunk) (fs : FileStructure) : Option ClassInfo :=
  debugGo lines fs.classes (debugCtxLines h)

/-- Context filter of the standard class search in `_apply_method_addition`
(` `/`-`-prefixed, stripped, nonempty, not mentioning `class `). -/
def methodCtxLines (h : Hunk) : List Line :=
  h.lines.filterMap (fun hl =>
    if startsWithL (str " ") hl || startsWithL (str "-") hl then
      let c := pyStrip hl.tail
      if c ≠ [] && !(containsSub (str "class ") c) then some c else none
    else none)

/-- The descending search `for i in range(main_start - 1, class_start, -1)`. -/
def descFind (lines : List Line) (startI stopEx : Int) : Option Int :=
  let cnt := if startI ≤ stopEx then 0 else (startI - stopEx).toNat
  (List.range cnt).findSome? (fun k =>
    let i := startI - k
    if pyStrip (getLineI lines i) ≠ [] then some i else none)

/-- The `while class_end > start and not lines[class_end-1].strip()` loop
(fuel bounds the number of decrements; `(ce - startL).toNat` suffices). -/
def shrinkEndGo (lines : List Line) (startL : Int) : Nat → Int → Int
  | 0, ce => ce
  | fuel + 1, ce =>
    if startL < ce ∧ pyStrip (getLineI lines (ce - 1)) = [] then
      shrinkEndGo lines startL fuel (ce - 1)
    else ce

/-- `PatchApplicator._find_best_insertion_point`. -/
def findBestInsertionPoint (lines : List Line) (tc : ClassInfo) (fs : FileStructure) : Nat :=
  let viaMain : Option Int :=
    match fs.main_block with
    | some mb => descFind lines ((mb.start_line : Int) - 1) (tc.start_line : Int)
    | none => none
  match viaMain with
  | some i => (i + 1).toNat
  | none =>
    let ce := classEnd lines tc
    (shrinkEndGo lines (tc.start_line : Int) (ce - tc.start_line).toNat ce).toNat

/-- `PatchApplicator._apply_method_addition`. -/
def applyMethodAddition (lines : List Line) (h : Hunk) (fs : FileStructure)
    (added : List Line) (start : Nat) : List Line :=
  let target : Option ClassInfo :=
    match debugContextMatch lines h fs with
    | some t => some t
    | none =>
      let ctxs := methodCtxLines h
      let best := fs.classes.foldl (fun (acc : Option ClassInfo × Nat) ci =>
        let sc := classScore lines ctxs ci
        if sc > acc.2 then (some ci, sc) else acc) (none, 0)
      match best.1 with
      | some bm =>
        if best.2 ≥ 5 then some bm
        else fs.classes.find? (fun ci =>
          ci.start_line ≤ start && (start : Int) ≤ classEnd lines ci + 20)
      | none =>
        fs.classes.find? (fun ci =>
          ci.start_line ≤ start && (start : Int) ≤ classEnd lines ci + 20)
  let insertionPoint : Nat :=
    match target with
    | none =>
      match fs.main_block with
      | some mb => mb.start_line
      | none => lines.length
    | some tc => findBestInsertionPoint lines tc fs
  let methodLines := added.map (fun line =>
    if pyStrip line ≠ [] then
      if fs.language = .python then
        if !(startsWithL (str "    ") line) && containsSub (str "def ") line then
          str "    " ++ pyStrip line
        else if !(startsWithL (str " ") line) && !(containsSub (str "def ") line) then
          str "        " ++ pyStrip line
        else line
      else line
    else [])
  lines.take insertionPoint ++ methodLines ++ lines.drop insertionPoint

/-- `PatchApplicator._apply_class_addition`. -/
def applyClassAddition (lines : List Line) (added : List Line) (start : Nat) : List Line :=
  let insertionPoint := min start lines.length
  lines.take insertionPoint ++ added ++ lines.drop insertionPoint

/-- `+`-prefixed body texts (`added_content`). -/
def hunkAdded (h : Hunk) : List Line :=
  h.lines.filterMap (fun hl => if startsWithL (str "+") hl then some hl.tail else none)

/-- `-`-prefixed body texts (`removed_content`). -/
def hunkRemoved (h : Hunk) : List Line :=
  h.lines.filterMap (fun hl => if startsWithL (str "-") hl then some hl.tail else none)

/-- ` `-prefixed body texts (`context_lines`). -/
def hunkContext (h : Hunk) : List Line :=
  h.lines.filterMap (fun hl => if startsWithL (str " ") hl then some hl.tail else none)

/-- `PatchApplicator._apply_single_hunk_complete`. -/
def applySingleHunkComplete (fs : FileStructure) (lines : List Line) (h : Hunk) : List Line :=
  let start := correctLineNumber lines h
  if h.lines = [] then lines
  else
    let added := hunkAdded h
    let isMethod := added.any (fun l => isFunctionLine (pyStrip l) fs.language)
    let isCls := added.any (fun l => isClassLine (pyStrip l) fs.language)
    if isMethod then applyMethodAddition lines h fs added start
    else if isCls then applyClassAddition lines added start
    else applyNormalHunk lines h start

/-- `PatchApplicator._apply_hunks_complete`. -/
def applyHunksComplete (content : List Char) (hunks : List Hunk) (fs : FileStructure) : List Char :=
  joinNl (hunks.foldl (fun ls h => applySingleHunkComplete fs ls h) (splitNl content))

/-- `PatchApplicator.apply_patch` (no statement in the embedded code can
raise, so the enclosing `try/except` never returns early). -/
def applyPatch (orig diff : List Char) : List Char :=
  let hunks := parseUnifiedDiff diff
  if hunks = [] then orig
  else applyHunksComplete orig hunks (analyzeFileStructure orig)

/-! ## `line_number_corrector.py`

Default configuration (`patch_processor_config.py`, section `correction`):
`similarity_threshold = 0.7`, `fuzzy_search_enabled = True`,
`context_window = 5`.  Thresholds are modelled in `ℚ`; for the integer
comparisons performed (`matches >= max(2, 0.8*len)` with `len ≤ 20`, and
ratios sharing one denominator per search) the float and rational cutoffs
coincide. -/

def contextWindow : Nat := 5

def fuzzySearchEnabled : Bool := true

/-- `LineNumberCorrector._clean_diff_metadata` (drops metadata lines). -/
def cleanDiffMetadata (diff : List Char) : List Char :=
  joinNl ((splitNl diff).filter (fun l => !(startsWithAny metaPrefixes l)))

/-- Collection loop of `_extract_context_from_diff` (` `/`-` tails, stop at
the next `@@` or once `context_window` lines are collected). -/
def extractContextGo (win : Nat) (acc : List Line) : List Line → List Line
  | [] => acc.reverse
  | l :: rest =>
    if startsWithL (str "@@") l then acc.reverse
    else
      let acc' :=
        if startsWithL (str " ") l then l.tail :: acc
        else if startsWithL (str "-") l then l.tail :: acc
        else acc
      if acc'.length ≥ win then acc'.reverse else extractContextGo win acc' rest

/-- `LineNumberCorrector._extract_context_from_diff`, applied to the lines
after the header. -/
def extractContextFromDiff (rest : List Line) : List Line :=
  extractContextGo contextWindow [] rest

/-- Inner loop of `_exact_search`: count matches walking `context` from file
position `pos`, breaking at the first mismatch (both `elif` arms `break`). -/
def exactMatchesFrom (file : List Line) : List Line → Nat → Nat
  | [], _ => 0
  | c :: cs, pos =>
    if pos < file.length then
      if pyStrip (file.getD pos []) = c then 1 + exactMatchesFrom file cs (pos + 1)
      else 0
    else exactMatchesFrom file cs (pos + 1)

/-- `matches >= max(2, len(context) * 0.8)`, over the integers:
`m ≥ max(2, 4L/5)  ⟺  m ≥ 2 ∧ 5m ≥ 4L`.  The Python comparison uses the
float `0.8`; for every context length reachable here (the window caps it at
5, and the cutoffs agree for all `L ≤ 20`) the float and exact-rational
integer cutoffs coincide. -/
def exactThresholdOK (numMatches ctxLen : Nat) : Bool :=
  decide (2 ≤ numMatches) && decide (4 * ctxLen ≤ 5 * numMatches)

/-- `LineNumberCorrector._exact_search` (returns `i + 1`, 1-based). -/
def exactSearch (ctx file : List Line) : Option Nat :=
  ((List.range (file.length + 1 - ctx.length)).find?
    (fun i => exactThresholdOK (exactMatchesFrom file ctx i) ctx.length)).map
    (fun i => i + 1)

/-- Length of the longest common prefix (list-of-lines equality). -/
def commonPrefixLen : List Line → List Line → Nat
  | x :: xs, y :: ys => if x = y then 1 + commonPrefixLen xs ys else 0
  | _, _ => 0

/-- `difflib.SequenceMatcher.find_longest_match` without junk (sequences here
are far below the autojunk cutoff of 200): the longest common contiguous
block, ties broken by the smallest start in `a`, then in `b`. -/
def findLongestMatch (a b : List Line) : Nat × Nat × Nat :=
  (List.range a.length).foldl (fun best i =>
    (List.range b.length).foldl (fun best j =>
      let k := commonPrefixLen (a.drop i) (b.drop j)
      if k > best.2.2 then (i, j, k) else best) best)
    (0, 0, 0)

/-- Total size of all matching blocks (`get_matching_blocks` recursion);
fuel `a.length + 1` suffices since both sides of each split are strictly
shorter in `a`. -/
def matchSumF : Nat → List Line → List Line → Nat
  | 0, _, _ => 0
  | fuel + 1, a, b =>
    let m := findLongestMatch a b
    if m.2.2 = 0 then 0
    else
      matchSumF fuel (a.take m.1) (b.take m.2.1) + m.2.2 +
        matchSumF fuel (a.drop (m.1 + m.2.2)) (b.drop (m.2.1 + m.2.2))

/-- `difflib.SequenceMatcher(None, a, b).ratio()` as an exact fraction
`(numerator, denominator)`; `ratio()` returns `1.0` for two empty sequences,
here `(1, 1)`.  The denominator is therefore always positive. -/
def ratioPair (a b : List Line) : Nat × Nat :=
  if a.length + b.length = 0 then (1, 1)
  else (2 * matchSumF (a.length + 1) a b, a.length + b.length)

/-- `LineNumberCorrector._fuzzy_search` (best strictly-improving ratio at or
above `similarity_threshold = 0.7`; returns `i + 1`).  Float comparisons are
modelled exactly by cross-multiplication: within one search all candidate
ratios share the denominator `2 * len(context)`, so the float comparisons
agree with the exact ones at these magnitudes. -/
def fuzzySearch (ctx file : List Line) : Option Nat :=
  ((List.range (file.length + 1 - ctx.length)).foldl
    (fun (acc : (Nat × Nat) × Option Nat) i =>
      let seg := (List.range ctx.length).map (fun j => pyStrip (file.getD (i + j) []))
      let r := ratioPair ctx seg
      if acc.1.1 * r.2 < r.1 * acc.1.2 ∧ 7 * r.2 ≤ 10 * r.1 then (r, some (i + 1))
      else acc)
    ((0, 1), none)).2

/-- `LineNumberCorrector._find_context_position`. -/
def findContextPosition (context file : List Line) : Option Nat :=
  match context with
  | [] => none
  | _ =>
    let clean := (context.map pyStrip).filter (fun l => l ≠ [])
    if clean = [] then none
    else
      match exactSearch clean file with
      | some p => some p
      | none => if fuzzySearchEnabled then fuzzySearch clean file else none

/-- Counting loop of `_calculate_line_counts` (from the line after the header
to the next `@@`). -/
def calcCountsGo : List Line → Nat × Nat
  | [] => (0, 0)
  | l :: rest =>
    if startsWithL (str "@@") l then (0, 0)
    else
      let p := calcCountsGo rest
      ((if startsWithL (str " ") l || startsWithL (str "-") l then 1 else 0) + p.1,
       (if startsWithL (str " ") l || startsWithL (str "+") l then 1 else 0) + p.2)

/-- `LineNumberCorrector._calculate_line_counts` (minimum 1 each). -/
def calcLineCounts (rest : List Line) : Nat × Nat :=
  let p := calcCountsGo rest
  (max 1 p.1, max 1 p.2)

/-- A committed `,?` regex item. -/
def skipComma : Line → Line
  | ',' :: cs => cs
  | other => other

/-- The suffix captured by `re.match(r'@@\s*-\d+,?\d*\s*\+\d+,?\d*\s*@@(.*)$', h)`
in `_rebuild_header` (empty when the match fails). -/
def headerSuffix (l : Line) : Line :=
  match (do
    let r ← matchLit (str "@@") l
    let r ← matchLit (str "-") (skipSpaces r)
    let (_, r) ← matchNum r
    let r := (skipComma r).dropWhile Char.isDigit
    let r ← matchLit (str "+") (skipSpaces r)
    let (_, r) ← matchNum r
    let r := (skipComma r).dropWhile Char.isDigit
    let r ← matchLit (str "@@") (skipSpaces r)
    pure r : Option Line) with
  | some suffix => suffix
  | none => []

/-- `LineNumberCorrector._rebuild_header`. -/
def rebuildHeader (origHeader : Line) (newLineNumber oldCount newCount : Nat) : Line :=
  str "@@ -" ++ natDigits newLineNumber ++ str "," ++ natDigits oldCount ++
    str " +" ++ natDigits newLineNumber ++ str "," ++ natDigits newCount ++
    str " @@" ++ headerSuffix origHeader

/-- `LineNumberCorrector._fix_single_header` (`rest` is the tail of the diff
lines after the header; both helper loops only scan forward from there). -/
def fixSingleHeader (header : Line) (rest : List Line) (origLines : List Line) :
    Line × Bool :=
  let context := extractContextFromDiff rest
  if context = [] then (header, false)
  else
    match findContextPosition context origLines with
    | some p =>
      let counts := calcLineCounts rest
      (rebuildHeader header p counts.1 counts.2, true)
    | none => (header, false)

/-- Per-line loop of `correct_diff_headers`. -/
def correctLines (origLines : List Line) : List Line → List Line
  | [] => []
  | l :: rest =>
    (if startsWithL (str "@@") l then (fixSingleHeader l rest origLines).1 else l) ::
      correctLines origLines rest

/-- `LineNumberCorrector.correct_diff_headers`. -/
def correctDiffHeaders (diff orig : List Char) : List Char :=
  joinNl (correctLines (splitNl orig) (splitNl (cleanDiffMetadata diff)))

/-! ## `patch_analyzer.py`

Default configuration (`patch_processor_config.py`, section `security`):
`scan_dangerous_patterns = True`, `allow_system_calls = False`; both are kept
as parameters. -/

inductive IssueType
  | error | warning | info
deriving DecidableEq

/-- `core_types.PatchIssue` (`itype` stands for the Python field `type`). -/
structure PatchIssue where
  itype : IssueType
  line_number : Nat
  message : List Char
  suggestion : Option (List Char)
  auto_fixable : Bool
  severity : Nat
deriving DecidableEq

/-- One header counted by `_is_multi_file_patch`. -/
def isFileHeaderLine (l : Line) : Bool :=
  let s := pyStrip l
  (startsWithL (str "*** ") s && endsWithL (str ".py") s) ||
  (startsWithL (str "--- ") s && endsWithL (str ".py") s) ||
  (startsWithL (str "+++ ") s && endsWithL (str ".py") s) ||
  startsWithL (str "Index: ") s || startsWithL (str "diff --git") s

/-- `PatchAnalyzer._is_multi_file_patch`. -/
def isMultiFilePatch (patch : List Char) : Bool :=
  2 < (splitNl patch).countP isFileHeaderLine

/-- `re.sub(r'^[\-\+\*]+\s+', '', line)`. -/
def stripHeaderPrefix (l : Line) : Line :=
  let pre := l.takeWhile (fun c => c = '-' || c = '+' || c = '*')
  if pre = [] then l
  else
    let rest := l.drop pre.length
    let sp := rest.takeWhile isPySpace
    if sp = [] then l else rest.drop sp.length

/-- A committed `\s+` regex item. -/
def matchSpaces1 (l : Line) : Option Line :=
  match l with
  | c :: cs => if isPySpace c then some (skipSpaces cs) else none
  | [] => none

/-- A committed `\d{n}` regex item. -/
def matchExactDigits : Nat → Line → Option Line
  | 0, l => some l
  | n + 1, c :: cs => if c.isDigit then matchExactDigits n cs else none
  | _ + 1, [] => none

/-- `\s+\d{4}-\d{2}-\d{2}\s+\d{2}:\d{2}:\d{2}.*$` tried at one position. -/
def dateTailAt (l : Line) : Bool :=
  (do
    let r ← matchSpaces1 l
    let r ← matchExactDigits 4 r
    let r ← matchLit (str "-") r
    let r ← matchExactDigits 2 r
    let r ← matchLit (str "-") r
    let r ← matchExactDigits 2 r
    let r ← matchSpaces1 r
    let r ← matchExactDigits 2 r
    let r ← matchLit (str ":") r
    let r ← matchExactDigits 2 r
    let r ← matchLit (str ":") r
    let _ ← matchExactDigits 2 r
    pure () : Option Unit).isSome

/-- A committed `[A-Z][a-z]{2}` regex item. -/
def matchCapWord3 (l : Line) : Option Line :=
  match l with
  | c :: cs =>
    if c.isUpper then
      match cs with
      | d :: e :: rest => if d.isLower && e.isLower then some rest else none
      | _ => none
    else none
  | [] => none

/-- `\s+[A-Z][a-z]{2}\s+[A-Z][a-z]{2}\s+\d+.*$` tried at one position. -/
def monthTailAt (l : Line) : Bool :=
  (do
    let r ← matchSpaces1 l
    let r ← matchCapWord3 r
    let r ← matchSpaces1 r
    let r ← matchCapWord3 r
    let r ← matchSpaces1 r
    let _ ← matchNum r
    pure () : Option Unit).isSome

/-- Earliest position whose suffix satisfies `m` (`re.search` scan order). -/
def searchPos (m : Line → Bool) : Line → Nat → Option Nat
  | [], i => if m [] then some i else none
  | c :: cs, i => if m (c :: cs) then some i else searchPos m cs (i + 1)

/-- `re.search` as a Bool (`pattern occurs somewhere`). -/
def searchB (m : Line → Bool) : Line → Bool
  | [] => m []
  | c :: cs => m (c :: cs) || searchB m cs

/-- Trailing path component (`content.split('/')[-1]`). -/
def afterLastSlash (l : Line) : Line :=
  (l.reverse.takeWhile (fun c => c ≠ '/')).reverse

/-- `PatchAnalyzer._extract_filename_from_header`. -/
def extractFilenameFromHeader (line : Line) : Option Line :=
  let content := stripHeaderPrefix line
  let content :=
    match searchPos dateTailAt content 0 with
    | some p => content.take p
    | none => content
  let content :=
    match searchPos monthTailAt content 0 with
    | some p => content.take p
    | none => content
  let content := pyStrip (content.takeWhile (fun c => c ≠ '\t'))
  let filename := if containsSub (str "/") content then afterLastSlash content else content
  if filename ≠ [] && endsWithL (str ".py") filename && filename.length > 3 then some filename
  else none

inductive FType
  | context_old | unified_old | unified_new
deriving DecidableEq

structure FileInfo where
  name : Line
  line : Nat
  ftype : FType
deriving DecidableEq

/-- `PatchAnalyzer._extract_individual_files`. -/
def extractIndividualFiles (patch : List Char) : List FileInfo :=
  (splitNl patch).enum.filterMap (fun p =>
    let s := pyStrip p.2
    if startsWithL (str "*** ") s && containsSub (str ".py") s then
      (extractFilenameFromHeader s).map (fun nm => (⟨nm, p.1 + 1, .context_old⟩ : FileInfo))
    else if startsWithL (str "--- ") s && containsSub (str ".py") s then
      (extractFilenameFromHeader s).map (fun nm => (⟨nm, p.1 + 1, .unified_old⟩ : FileInfo))
    else if startsWithL (str "+++ ") s && containsSub (str ".py") s then
      (extractFilenameFromHeader s).map (fun nm => (⟨nm, p.1 + 1, .unified_new⟩ : FileInfo))
    else none)

/-- `PatchAnalyzer._analyze_multi_file_patch`. -/
def analyzeMultiFilePatch (patch : List Char) : List PatchIssue :=
  let files := extractIndividualFiles patch
  if 1 < files.length then
    (⟨.warning, 0,
        str "Patch multi-fichiers détecté (" ++ natDigits files.length ++ str " fichiers)",
        some (str "Considérer séparer en patches individuels"), false, 2⟩ : PatchIssue) ::
      files.map (fun fi =>
        (⟨.info, fi.line, str "Fichier détecté: " ++ fi.name, none, false, 1⟩ : PatchIssue))
  else []

inductive PatchType
  | unified | context | ed | git | unknown
deriving DecidableEq

/-- `re.match(r'^\d+[acd]\d+', line)`. -/
def edCommandAt (l : Line) : Bool :=
  (do
    let (_, r) ← matchNum l
    match r with
    | c :: cs =>
      if c = 'a' || c = 'c' || c = 'd' then
        let (_, _) ← matchNum cs
        pure ()
      else none
    | [] => none : Option Unit).isSome

/-- `PatchAnalyzer._detect_patch_type`. -/
def detectPatchType (patch : List Char) : PatchType :=
  let lines := splitNl patch
  let hasUnified := lines.any (startsWithAny [str "--- ", str "+++ "])
  let hasContext := lines.any (startsWithAny [str "*** ", str "--- "])
  let hasHunks := lines.any (fun l => startsWithL (str "@@") l)
  if hasUnified && hasHunks then .unified
  else if hasContext then .context
  else if lines.any edCommandAt then .ed
  else if lines.any (startsWithAny [str "diff ", str "Index: "]) then .git
  else .unknown

/-- `re.match(r'@@\s*-\d+(?:,\d+)?\s*\+\d+(?:,\d+)?\s*@@', line)` (the same
shape as `_parse_hunk_header`'s pattern). -/
def validHunkHeaderFormat (l : Line) : Bool :=
  (parseHunkHeader l).isSome

/-- `PatchAnalyzer._check_format_issues_improved`. -/
def checkFormatIssues (patch : List Char) : List PatchIssue :=
  let lines := splitNl patch
  let ptype := detectPatchType patch
  if ptype = .unknown then
    [⟨.error, 1, str "Format de patch non reconnu",
      some (str "Vérifier que c'est un patch diff valide"), false, 3⟩]
  else
    let lineIssues := lines.enum.filterMap (fun p =>
      let line := p.2
      let ln := p.1 + 1
      if startsWithL (str "@@") line then
        if !(validHunkHeaderFormat line) then
          some (⟨.error, ln, str "Format de header de diff invalide",
            some (str "Correction automatique du format"), true, 3⟩ : PatchIssue)
        else none
      else if startsWithAny [str "--- ", str "+++ ", str "*** "] line then none
      else if line ≠ [] && !(startsWithAny [str "diff ", str "Index: ", str "===="] line) then
        if ptype = .unified then
          if !(startsWithAny [str " ", str "+", str "-", str "\\"] line) then
            some (⟨.warning, ln, str "Ligne de contenu invalide pour patch unifié",
              some (str "Vérifier le format du patch"), false, 2⟩ : PatchIssue)
          else none
        else none
      else none)
    let hunkCount := lines.countP (fun l => startsWithL (str "@@") l && validHunkHeaderFormat l)
    let headerCount := lines.countP (fun l =>
      !(startsWithL (str "@@") l) && startsWithAny [str "--- ", str "+++ ", str "*** "] l)
    lineIssues ++
      (if hunkCount = 0 then
        [⟨.warning, 0, str "Aucun hunk de modification trouvé",
          some (str "Vérifier que le patch contient des modifications"), false, 2⟩]
      else []) ++
      (if headerCount = 0 then
        [⟨.warning, 0, str "Aucun en-tête de fichier trouvé",
          some (str "Ajouter des en-têtes --- et +++ appropriés"), true, 2⟩]
      else [])

/-- Decimal rendering of a Python `int`. -/
def intDigits (i : Int) : List Char :=
  if i < 0 then '-' :: natDigits (-i).toNat else natDigits i.toNat

/-- The consistency-pass header pattern tried at one position of the whole
patch text (`\s` may cross newlines here); returns the four groups
(1-based `old_start`, counts defaulting to 1) and the rest of the text. -/
def headerGroupsAt (l : Line) : Option ((Nat × Nat × Nat × Nat) × Line) := do
  let r ← matchLit (str "@@") l
  let r ← matchLit (str "-") (skipSpaces r)
  let (a, r) ← matchNum r
  let (b, r) ← matchOptCommaNum r
  let r ← matchLit (str "+") (skipSpaces r)
  let (c, r) ← matchNum r
  let (d, r) ← matchOptCommaNum r
  let r ← matchLit (str "@@") (skipSpaces r)
  pure ((a, b.getD 1, c, d.getD 1), r)

/-- `re.finditer` over the patch text (leftmost, non-overlapping; every match
consumes at least one character, so fuel `length + 1` suffices). -/
def finditerHunkHeaders : Nat → List Char → List (Nat × Nat × Nat × Nat)
  | 0, _ => []
  | _, [] => []
  | fuel + 1, c :: cs =>
    match headerGroupsAt (c :: cs) with
    | some (g, rest) => g :: finditerHunkHeaders fuel rest
    | none => finditerHunkHeaders fuel cs

/-- `PatchAnalyzer._check_consistency_issues_improved`. -/
def checkConsistencyIssues (patch orig : List Char) : List PatchIssue :=
  if orig = [] || pyStrip orig = [] then []
  else
    let origLines := splitNl orig
    (finditerHunkHeaders (patch.length + 1) patch).flatMap (fun g =>
      let oldStart : Int := g.1
      let oldCount : Int := g.2.1
      let newCount : Int := g.2.2.2
      (if oldStart ≤ 0 then
        [⟨.error, 0, str "Numéro de ligne de départ invalide: " ++ intDigits oldStart,
          some (str "Correction automatique à partir de 1"), true, 3⟩]
      else []) ++
      (if (origLines.length : Int) < oldStart + oldCount - 1 then
        [⟨.warning, 0,
          str "Numéro de ligne " ++ intDigits (oldStart + oldCount - 1) ++
            str " dépasse la taille du fichier (" ++ natDigits origLines.length ++
            str " lignes)",
          some (str "Recalcul automatique basé sur le contenu"), true, 2⟩]
      else []) ++
      (if oldCount < 0 || newCount < 0 then
        [⟨.error, 0,
          str "Compte de lignes négatif: old=" ++ intDigits oldCount ++
            str ", new=" ++ intDigits newCount,
          some (str "Correction des comptes de lignes"), true, 3⟩]
      else []))

/-- Lower-casing models `re.IGNORECASE` (all patterns are ASCII). -/
def lcLine (l : Line) : Line := l.map Char.toLower

def isQuoteChar (c : Char) : Bool := c = '"' || c = '\''

/-- `eval\s*\(` at one position. -/
def evalCallAt (l : Line) : Bool :=
  match matchLit (str "eval") l with
  | some r => startsWithL (str "(") (skipSpaces r)
  | none => false

/-- `exec\s*\(` at one position. -/
def execCallAt (l : Line) : Bool :=
  match matchLit (str "exec") l with
  | some r => startsWithL (str "(") (skipSpaces r)
  | none => false

/-- `__import__\s*\(` at one position. -/
def importCallAt (l : Line) : Bool :=
  match matchLit (str "__import__") l with
  | some r => startsWithL (str "(") (skipSpaces r)
  | none => false

/-- `shell\s*=\s*True` at one position (on lower-cased text). -/
def shellTrueAt (l : Line) : Bool :=
  (do
    let r ← matchLit (str "shell") l
    let r ← matchLit (str "=") (skipSpaces r)
    let _ ← matchLit (str "true") (skipSpaces r)
    pure () : Option Unit).isSome

/-- `subprocess\..*shell\s*=\s*True` at one position. -/
def subprocessShellAt (l : Line) : Bool :=
  match matchLit (str "subprocess.") l with
  | some r => searchB shellTrueAt r
  | none => false

/-- `os\.system\s*\(` at one position. -/
def osSystemCallAt (l : Line) : Bool :=
  match matchLit (str "os.system") l with
  | some r => startsWithL (str "(") (skipSpaces r)
  | none => false

/-- `NAME\s*=\s*["\'][^"\']+["\']` at one position. -/
def quotedAssignAt (name : List Char) (l : Line) : Bool :=
  (do
    let r ← matchLit name l
    let r ← matchLit (str "=") (skipSpaces r)
    let r := skipSpaces r
    match r with
    | q :: rest =>
      if isQuoteChar q then
        let body := rest.takeWhile (fun c => !(isQuoteChar c))
        if body ≠ [] then
          match rest.drop body.length with
          | q2 :: _ => if isQuoteChar q2 then some () else none
          | [] => none
        else none
      else none
    | [] => none : Option Unit).isSome

/-- The `dangerous_patterns` table of `_check_security_issues`
(predicate on the lower-cased added text, message, severity). -/
def dangerousPatterns : List ((Line → Bool) × List Char × Nat) :=
  [(searchB evalCallAt, str "Utilisation d'eval() détectée", 3),
   (searchB execCallAt, str "Utilisation d'exec() détectée", 3),
   (searchB importCallAt, str "Importation dynamique détectée", 2),
   (searchB subprocessShellAt, str "Exécution shell détectée", 3),
   (searchB osSystemCallAt, str "Appel système détecté", 3),
   (fun l => searchB (quotedAssignAt (str "password")) l, str "Mot de passe en dur détecté", 2),
   (fun l => searchB (quotedAssignAt (str "secret_key")) l, str "Clé secrète en dur détectée", 3),
   (fun l => searchB (quotedAssignAt (str "api_key")) l, str "Clé API en dur détectée", 2)]

/-- `execv?\(` at one position. -/
def execvCallAt (l : Line) : Bool :=
  match matchLit (str "exec") l with
  | some r =>
    match r with
    | 'v' :: '(' :: _ => true
    | '(' :: _ => true
    | _ => false
  | none => false

/-- The `system_patterns` table (predicates on the lower-cased added text). -/
def systemPatterns : List (Line → Bool) :=
  [containsSub (str "os.system("),
   containsSub (str "subprocess."),
   containsSub (str "popen("),
   searchB execvCallAt]

/-- First pass of `_check_security_issues` (warnings on added lines). -/
def securityPass1 (lines : List (Nat × Line)) : List PatchIssue :=
  lines.flatMap (fun p =>
    if startsWithL (str "+") p.2 && p.2.length > 1 then
      let content := lcLine p.2.tail
      dangerousPatterns.filterMap (fun dp =>
        if dp.1 content then
          some (⟨.warning, p.1 + 1, dp.2.1,
            some (str "Vérifier que ce code est sûr"), false, dp.2.2⟩ : PatchIssue)
        else none)
    else [])

/-- Second pass of `_check_security_issues` (hard errors when system calls
are disallowed). -/
def securityPass2 (lines : List (Nat × Line)) : List PatchIssue :=
  lines.flatMap (fun p =>
    if startsWithL (str "+") p.2 then
      let content := lcLine p.2.tail
      systemPatterns.filterMap (fun sp =>
        if sp content then
          some (⟨.error, p.1 + 1, str "Appel système non autorisé détecté",
            some (str "Supprimer ou configurer l'autorisation"), false, 3⟩ : PatchIssue)
        else none)
    else [])

/-- `PatchAnalyzer._check_security_issues`. -/
def checkSecurityIssues (allowSystemCalls : Bool) (patch : List Char) : List PatchIssue :=
  let lines := (splitNl patch).enum
  securityPass1 lines ++ (if !allowSystemCalls then securityPass2 lines else [])

/-- `PatchAnalyzer.analyze_patch_quality`. -/
def analyzePatchQuality (scanDangerous allowSystemCalls : Bool)
    (patch orig : List Char) : List PatchIssue :=
  if isMultiFilePatch patch then analyzeMultiFilePatch patch
  else
    checkFormatIssues patch ++
      (if orig ≠ [] && pyStrip orig ≠ [] then checkConsistencyIssues patch orig else []) ++
      (if scanDangerous then checkSecurityIssues allowSystemCalls patch else [])

/-- The in-memory pipeline of `SmartPatchProcessor.process_single_patch`
(analyze, correct, apply): the analyzer's issues are only collected, they
never gate the produced content. -/
def processPatchCore (scanDangerous allowSystemCalls : Bool)
    (patch orig : List Char) : List PatchIssue × List Char :=
  (analyzePatchQuality scanDangerous allowSystemCalls patch orig,
   applyPatch orig (correctDiffHeaders patch orig))

/-! ## Auxiliary definitions used by the claim statements -/

instance : Inhabited Hunk := ⟨⟨0, 1, 0, 1, []⟩⟩

/-- The exact search as the specification words it (count context lines that
match **positionally**, not only a contiguous prefix, and accept the earliest
offset reaching the threshold).  Stated only to compare against the source's
`exactSearch`. -/
def positionalMatchCount (ctx file : List Line) (i : Nat) : Nat :=
  (List.range ctx.length).countP (fun j => pyStrip (file.getD (i + j) []) = ctx.getD j [])

/-- The specification's reading of the exact search (see
`positionalMatchCount`); returns the accepted offset. -/
def exactSearchClaim (ctx file : List Line) : Option Nat :=
  (List.range (file.length + 1 - ctx.length)).find?
    (fun i => exactThresholdOK (positionalMatchCount ctx file i) ctx.length)

/-- The single hunk `@@ -1 +1 @@ / +x` as the applicator parses it. -/
def capHunk : Hunk := ⟨0, 1, 0, 1, [str "+x"]⟩

/-- A patch consisting of `n` copies of the hunk `@@ -1 +1 @@` with body `+x`. -/
def manyHunkPatch (n : Nat) : List Char :=
  joinNl (List.flatten (List.replicate n [str "@@ -1 +1 @@", str "+x"]))

/-- The hunk-start value the claim C6 expects: the original start clamped
into `[0, len-1]`. -/
def clampedStart (lines : List Line) (h : Hunk) : Nat :=
  min (max h.old_start 0).toNat (lines.length - 1)

/-! ## General lemmas -/

theorem takeHunkBody_rest_le (ls : List Line) : (takeHunkBody ls).2.length ≤ ls.length := by
  induction ls with
  | nil => simp [takeHunkBody]
  | cons l ls ih =>
    simp only [takeHunkBody]
    split
    · simp
    · split <;> simpa using Nat.le_succ_of_le ih

theorem length_filterMap_guard {α β : Type} (p : α → Bool) (g : α → β) (l : List α) :
    (l.filterMap (fun a => if p a then some (g a) else none)).length = l.countP p := by
  induction l with
  | nil => rfl
  | cons a l ih =>
    by_cases h : p a <;> simp [List.filterMap_cons, List.countP_cons, h, ih]

theorem hunkAdded_length (h : Hunk) :
    (hunkAdded h).length = h.lines.countP (fun l => startsWithL (str "+") l) := by
  simpa using length_filterMap_guard (fun l => startsWithL (str "+") l) List.tail h.lines

theorem hunkRemoved_length (h : Hunk) :
    (hunkRemoved h).length = h.lines.countP (fun l => startsWithL (str "-") l) := by
  simpa using length_filterMap_guard (fun l => startsWithL (str "-") l) List.tail h.lines

theorem hunkContext_length (h : Hunk) :
    (hunkContext h).length = h.lines.countP (fun l => startsWithL (str " ") l) := by
  simpa using length_filterMap_guard (fun l => startsWithL (str " ") l) List.tail h.lines

theorem findIdxFrom_some_lt (p : Line → Bool) :
    ∀ (ls : List Line) (s i : Nat), findIdxFrom p ls s = some i → i < s + ls.length := by
  intro ls
  induction ls with
  | nil => intro s i h; simp [findIdxFrom] at h
  | cons l ls ih =>
    intro s i h
    simp only [findIdxFrom] at h
    split at h
    · cases h; simp only [List.length_cons]; omega
    · have := ih (s + 1) i h
      simp only [List.length_cons]
      omega

theorem correctLineNumber_le (lines : List Line) (h : Hunk) :
    correctLineNumber lines h ≤ lines.length := by
  unfold correctLineNumber
  split
  · next hs =>
    have h1 : h.old_start < (lines.length : Int) := hs.2
    have h0 : 0 ≤ h.old_start := hs.1
    omega
  · split
    · exact le_rfl
    · split
      · next i hfind => exact le_of_lt (by simpa using findIdxFrom_some_lt _ _ _ _ hfind)
      · split
        · next i hfind => exact le_of_lt (by simpa using findIdxFrom_some_lt _ _ _ _ hfind)
        · exact le_rfl

theorem startsWithL_cons_cons (p c : Char) (ps cs : List Char) :
    startsWithL (p :: ps) (c :: cs) = if p = c then startsWithL ps cs else false := rfl

theorem replayHunk_length_bounds (lines : List Line) (hl : List Line) :
    ∀ idx : Nat,
      (lines.length - idx) - hl.countP (fun l => startsWithL (str "-") l) ≤
        (replayHunk lines hl idx).length ∧
      (replayHunk lines hl idx).length ≤
        (lines.length - idx) + hl.countP (fun l => startsWithL (str "+") l) +
          hl.countP (fun l => startsWithL (str " ") l) := by
  induction hl with
  | nil => intro idx; simp [replayHunk]
  | cons l rest ih =>
    intro idx
    cases l with
    | nil =>
      have := ih idx
      have e1 : startsWithL (str "+") ([] : Line) = false := rfl
      have e2 : startsWithL (str "-") ([] : Line) = false := rfl
      have e3 : startsWithL (str " ") ([] : Line) = false := rfl
      simp only [replayHunk, List.countP_cons, e1, e2, e3]
      simpa using this
    | cons op content =>
      by_cases hsp : op = ' '
      · subst hsp
        have e1 : startsWithL (str "+") (' ' :: content) = false := rfl
        have e2 : startsWithL (str "-") (' ' :: content) = false := rfl
        have e3 : startsWithL (str " ") (' ' :: content) = true := rfl
        by_cases hlt : idx < lines.length
        · have h1 := ih (idx + 1)
          simp only [replayHunk, if_pos rfl, if_pos hlt, List.countP_cons, e1, e2, e3,
            List.length_cons, if_false, if_true, Bool.false_eq_true]
          omega
        · have h1 := ih idx
          simp only [replayHunk, if_pos rfl, if_neg hlt, List.countP_cons, e1, e2, e3,
            List.length_cons, if_false, if_true, Bool.false_eq_true]
          omega
      · by_cases hmn : op = '-'
        · subst hmn
          have e1 : startsWithL (str "+") ('-' :: content) = false := rfl
          have e2 : startsWithL (str "-") ('-' :: content) = true := rfl
          have e3 : startsWithL (str " ") ('-' :: content) = false := rfl
          by_cases hlt : idx < lines.length
          · have h1 := ih (idx + 1)
            simp only [replayHunk, if_neg (by decide : ¬ ('-' = ' ')), if_pos rfl,
              if_pos hlt, List.countP_cons, e1, e2, e3,
              if_false, if_true, Bool.false_eq_true]
            omega
          · have h1 := ih idx
            simp only [replayHunk, if_neg (by decide : ¬ ('-' = ' ')), if_pos rfl,
              if_neg hlt, List.countP_cons, e1, e2, e3,
              if_false, if_true, Bool.false_eq_true]
            omega
        · by_cases hpl : op = '+'
          · subst hpl
            have e1 : startsWithL (str "+") ('+' :: content) = true := rfl
            have e2 : startsWithL (str "-") ('+' :: content) = false := rfl
            have e3 : startsWithL (str " ") ('+' :: content) = false := rfl
            have h1 := ih idx
            simp only [replayHunk, if_neg (by decide : ¬ ('+' = ' ')),
              if_neg (by decide : ¬ ('+' = '-')), if_pos rfl, List.countP_cons,
              e1, e2, e3, List.length_cons,
              if_false, if_true, Bool.false_eq_true]
            omega
          · have e1 : startsWithL (str "+") (op :: content) = false := by
              simp only [str, startsWithL_cons_cons]
              rw [if_neg (fun h => hpl h.symm)]
            have e2 : startsWithL (str "-") (op :: content) = false := by
              simp only [str, startsWithL_cons_cons]
              rw [if_neg (fun h => hmn h.symm)]
            have e3 : startsWithL (str " ") (op :: content) = false := by
              simp only [str, startsWithL_cons_cons]
              rw [if_neg (fun h => hsp h.symm)]
            have h1 := ih idx
            simp only [replayHunk, if_neg hsp, if_neg hmn, if_neg hpl, List.countP_cons,
              e1, e2, e3, if_false, if_true, Bool.false_eq_true]
            omega

theorem applyMethodAddition_length (lines : List Line) (h : Hunk) (fs : FileStructure)
    (added : List Line) (start : Nat) :
    (applyMethodAddition lines h fs added start).length = lines.length + added.length := by
  unfold applyMethodAddition
  simp only [List.length_append, List.length_take, List.length_drop, List.length_map]
  omega

theorem applyClassAddition_length (lines added : List Line) (start : Nat) :
    (applyClassAddition lines added start).length = lines.length + added.length := by
  unfold applyClassAddition
  simp only [List.length_append, List.length_take, List.length_drop]
  omega

theorem applyNormalHunk_length_bounds (lines : List Line) (h : Hunk) (start : Nat)
    (hle : start ≤ lines.length) :
    lines.length - (hunkRemoved h).length ≤ (applyNormalHunk lines h start).length ∧
    (applyNormalHunk lines h start).length ≤
      lines.length + (hunkAdded h).length + (hunkContext h).length := by
  have hb := replayHunk_length_bounds lines h.lines start
  rw [hunkAdded_length, hunkRemoved_length, hunkContext_length]
  unfold applyNormalHunk
  rw [List.length_append, List.length_take]
  omega

theorem replayHunk_at_length (lines : List Line) (hl : List Line) :
    replayHunk lines hl lines.length = hl.filterMap (fun l =>
      match l with
      | [] => none
      | op :: content => if op = ' ' ∨ op = '+' then some content else none) := by
  induction hl with
  | nil => simp [replayHunk]
  | cons l rest ih =>
    cases l with
    | nil => simpa [replayHunk, List.filterMap_cons] using ih
    | cons op content =>
      by_cases hsp : op = ' '
      · subst hsp
        simp [replayHunk, List.filterMap_cons, ih]
      · by_cases hmn : op = '-'
        · subst hmn
          simp [replayHunk, List.filterMap_cons, ih]
        · by_cases hpl : op = '+'
          · subst hpl
            simp [replayHunk, List.filterMap_cons, ih]
          · simp [replayHunk, List.filterMap_cons, hsp, hmn, hpl, ih]

theorem splitNl_cons (c : Char) (cs : List Char) :
    splitNl (c :: cs) =
      match splitNl cs with
      | [] => [[]]
      | h :: t => if c = '\n' then [] :: h :: t else (c :: h) :: t := rfl

theorem splitNl_ne_nil (cs : List Char) : splitNl cs ≠ [] := by
  induction cs with
  | nil => simp [splitNl]
  | cons c cs ih =>
    rw [splitNl_cons]
    split
    · simp
    · split <;> simp

theorem not_newline_mem_splitNl (cs : List Char) : ∀ l ∈ splitNl cs, '\n' ∉ l := by
  induction cs with
  | nil =>
    intro l hl
    simp [splitNl] at hl
    subst hl
    simp
  | cons c cs ih =>
    intro l hl
    cases hs : splitNl cs with
    | nil => exact absurd hs (splitNl_ne_nil cs)
    | cons h t =>
      simp only [splitNl_cons, hs] at hl
      by_cases hc : c = '\n'
      · rw [if_pos hc] at hl
        rcases List.mem_cons.mp hl with h1 | h2
        · subst h1; simp
        · exact ih l (hs ▸ h2)
      · rw [if_neg hc] at hl
        rcases List.mem_cons.mp hl with h1 | h2
        · subst h1
          intro hmem
          rcases List.mem_cons.mp hmem with h3 | h4
          · exact hc h3.symm
          · exact ih h (hs ▸ List.mem_cons_self h t) h4
        · exact ih l (hs ▸ List.mem_cons.mpr (Or.inr h2))

theorem splitNl_of_no_newline (l : Line) (h : '\n' ∉ l) : splitNl l = [l] := by
  induction l with
  | nil => rfl
  | cons c cs ih =>
    have hc : c ≠ '\n' := fun he => h (he ▸ List.mem_cons_self c cs)
    have hcs : '\n' ∉ cs := fun hm => h (List.mem_cons.mpr (Or.inr hm))
    simp only [splitNl_cons, ih hcs]
    rw [if_neg hc]

theorem splitNl_append_newline (l rest : List Char) (h : '\n' ∉ l) :
    splitNl (l ++ '\n' :: rest) = l :: splitNl rest := by
  induction l with
  | nil =>
    rw [List.nil_append, splitNl_cons]
    cases hs : splitNl rest with
    | nil => exact absurd hs (splitNl_ne_nil rest)
    | cons h t => simp
  | cons c cs ih =>
    have hc : c ≠ '\n' := fun he => h (he ▸ List.mem_cons_self c cs)
    have hcs : '\n' ∉ cs := fun hm => h (List.mem_cons.mpr (Or.inr hm))
    rw [List.cons_append, splitNl_cons, ih hcs]
    simp only []
    rw [if_neg hc]

theorem splitNl_joinNl : ∀ ls : List Line, ls ≠ [] → (∀ l ∈ ls, '\n' ∉ l) →
    splitNl (joinNl ls) = ls := by
  intro ls
  induction ls with
  | nil => intro h; exact absurd rfl h
  | cons l ls ih =>
    intro _ hno
    cases ls with
    | nil =>
      simp only [joinNl]
      exact splitNl_of_no_newline l (hno l (List.mem_cons_self l []))
    | cons l2 t =>
      have : joinNl (l :: l2 :: t) = l ++ '\n' :: joinNl (l2 :: t) := rfl
      rw [this, splitNl_append_newline l _ (hno l (List.mem_cons_self l _)),
        ih (by simp) (fun x hx => hno x (List.mem_cons.mpr (Or.inr hx)))]

theorem matchLit_suffix {p l r : Line} (h : matchLit p l = some r) : r <:+ l := by
  unfold matchLit at h
  split at h
  · cases h; exact List.drop_suffix _ _
  · exact absurd h (by simp)

theorem parseDigits_suffix : ∀ (l : Line) (acc k : Nat), (parseDigits l acc k).2.2 <:+ l := by
  intro l
  induction l with
  | nil => intro acc k; simp [parseDigits]
  | cons c cs ih =>
    intro acc k
    simp only [parseDigits]
    split
    · exact (ih _ _).trans (List.suffix_cons c cs)
    · exact List.suffix_rfl

theorem matchNum_suffix {l : Line} {v : Nat} {r : Line} (h : matchNum l = some (v, r)) :
    r <:+ l := by
  unfold matchNum at h
  split at h
  next v' k rest heq =>
    split at h
    · exact absurd h (by simp)
    · cases h
      have := parseDigits_suffix l 0 0
      rw [heq] at this
      exact this

theorem skipSpaces_suffix (l : Line) : skipSpaces l <:+ l :=
  List.dropWhile_suffix _

theorem dropWhileDigit_suffix (l : Line) : l.dropWhile Char.isDigit <:+ l :=
  List.dropWhile_suffix _

theorem skipComma_suffix (l : Line) : skipComma l <:+ l := by
  unfold skipComma
  split
  · exact List.suffix_cons ',' _
  · exact List.suffix_rfl

theorem headerSuffix_suffix (l : Line) : headerSuffix l <:+ l := by
  unfold headerSuffix
  simp only [Option.bind_eq_bind]
  cases h1 : matchLit (str "@@") l with
  | none => exact List.nil_suffix
  | some r1 =>
    have s1 : r1 <:+ l := matchLit_suffix h1
    simp only [Option.some_bind]
    cases h2 : matchLit (str "-") (skipSpaces r1) with
    | none => exact List.nil_suffix
    | some r2 =>
      have s2 : r2 <:+ l := ((matchLit_suffix h2).trans (skipSpaces_suffix r1)).trans s1
      simp only [Option.some_bind]
      cases h3 : matchNum r2 with
      | none => exact List.nil_suffix
      | some pr =>
        obtain ⟨v3, r3⟩ := pr
        have s3 : r3 <:+ l := (matchNum_suffix h3).trans s2
        have s4 : (skipComma r3).dropWhile Char.isDigit <:+ l :=
          ((dropWhileDigit_suffix _).trans (skipComma_suffix r3)).trans s3
        simp only [Option.some_bind]
        cases h5 : matchLit (str "+") (skipSpaces ((skipComma r3).dropWhile Char.isDigit)) with
        | none => exact List.nil_suffix
        | some r5 =>
          have s5 : r5 <:+ l := ((matchLit_suffix h5).trans (skipSpaces_suffix _)).trans s4
          simp only [Option.some_bind]
          cases h6 : matchNum r5 with
          | none => exact List.nil_suffix
          | some pr6 =>
            obtain ⟨v6, r6⟩ := pr6
            have s6 : r6 <:+ l := (matchNum_suffix h6).trans s5
            have s7 : (skipComma r6).dropWhile Char.isDigit <:+ l :=
              ((dropWhileDigit_suffix _).trans (skipComma_suffix r6)).trans s6
            simp only [Option.some_bind]
            cases h8 : matchLit (str "@@") (skipSpaces ((skipComma r6).dropWhile Char.isDigit)) with
            | none => exact List.nil_suffix
            | some r8 =>
              have s8 : r8 <:+ l := ((matchLit_suffix h8).trans (skipSpaces_suffix _)).trans s7
              exact s8

theorem digitChar_ne_newline (n : Nat) : digitChar n ≠ '\n' := by
  unfold digitChar
  split <;> decide

theorem not_newline_mem_natDigitsGo :
    ∀ (fuel n : Nat) (acc : List Char), (∀ c ∈ acc, c ≠ '\n') →
      ∀ c ∈ natDigitsGo fuel n acc, c ≠ '\n' := by
  intro fuel
  induction fuel with
  | zero => intro n acc hacc c hc; exact hacc c hc
  | succ fuel ih =>
    intro n acc hacc c hc
    simp only [natDigitsGo] at hc
    split at hc
    · rcases List.mem_cons.mp hc with h1 | h2
      · exact h1 ▸ digitChar_ne_newline n
      · exact hacc c h2
    · refine ih (n / 10) _ ?_ c hc
      intro c' hc'
      rcases List.mem_cons.mp hc' with h1 | h2
      · exact h1 ▸ digitChar_ne_newline (n % 10)
      · exact hacc c' h2

theorem not_newline_mem_natDigits (n : Nat) : '\n' ∉ natDigits n := by
  intro hmem
  exact not_newline_mem_natDigitsGo (n + 1) n [] (by simp) '\n' hmem rfl

theorem not_newline_append {x y : Line} (hx : '\n' ∉ x) (hy : '\n' ∉ y) :
    '\n' ∉ x ++ y := by
  intro hm
  rcases List.mem_append.mp hm with h | h
  · exact hx h
  · exact hy h

theorem rebuildHeader_no_newline (hd : Line) (p oc nc : Nat) (hh : '\n' ∉ hd) :
    '\n' ∉ rebuildHeader hd p oc nc := by
  unfold rebuildHeader
  have b1 : '\n' ∉ str "@@ -" := by decide
  have b2 : '\n' ∉ str "," := by decide
  have b3 : '\n' ∉ str " +" := by decide
  have b4 : '\n' ∉ str " @@" := by decide
  have bs : '\n' ∉ headerSuffix hd := fun hm => hh ((headerSuffix_suffix hd).subset hm)
  exact not_newline_append (not_newline_append (not_newline_append (not_newline_append
    (not_newline_append (not_newline_append (not_newline_append (not_newline_append
      (not_newline_append b1 (not_newline_mem_natDigits p)) b2)
        (not_newline_mem_natDigits oc)) b3) (not_newline_mem_natDigits p)) b2)
          (not_newline_mem_natDigits nc)) b4) bs

theorem fixSingleHeader_no_newline (header : Line) (rest origLines : List Line)
    (hh : '\n' ∉ header) : '\n' ∉ (fixSingleHeader header rest origLines).1 := by
  have hsplit : fixSingleHeader header rest origLines =
      if extractContextFromDiff rest = [] then (header, false)
      else
        match findContextPosition (extractContextFromDiff rest) origLines with
        | some p =>
          (rebuildHeader header p (calcLineCounts rest).1 (calcLineCounts rest).2, true)
        | none => (header, false) := rfl
  rw [hsplit]
  split
  · exact hh
  · cases findContextPosition (extractContextFromDiff rest) origLines with
    | none => exact hh
    | some p => exact rebuildHeader_no_newline header p _ _ hh

theorem correctLines_length (og : List Line) : ∀ ls : List Line,
    (correctLines og ls).length = ls.length := by
  intro ls
  induction ls with
  | nil => rfl
  | cons l rest ih => simp [correctLines, ih]

theorem correctLines_no_newline (og : List Line) : ∀ ls : List Line,
    (∀ l ∈ ls, '\n' ∉ l) → ∀ l' ∈ correctLines og ls, '\n' ∉ l' := by
  intro ls
  induction ls with
  | nil => intro _ l' hl'; simp [correctLines] at hl'
  | cons l rest ih =>
    intro hno l' hl'
    simp only [correctLines] at hl'
    rcases List.mem_cons.mp hl' with h1 | h2
    · subst h1
      split
      · exact fixSingleHeader_no_newline l rest og (hno l (List.mem_cons_self l rest))
      · exact hno l (List.mem_cons_self l rest)
    · exact ih (fun x hx => hno x (List.mem_cons.mpr (Or.inr hx))) l' h2

theorem correctLines_getElem?_of_not_header (og : List Line) :
    ∀ (ls : List Line) (i : Nat) (l : Line), ls[i]? = some l →
      startsWithL (str "@@") l = false → (correctLines og ls)[i]? = some l := by
  intro ls
  induction ls with
  | nil => intro i l h; simp at h
  | cons l0 rest ih =>
    intro i l hget hnot
    cases i with
    | zero =>
      simp only [List.getElem?_cons_zero, Option.some_inj] at hget
      subst hget
      simp only [correctLines, List.getElem?_cons_zero, Option.some_inj]
      rw [if_neg (by simp [hnot])]
    | succ i =>
      simp only [List.getElem?_cons_succ] at hget
      simpa only [correctLines, List.getElem?_cons_succ] using ih i l hget hnot

theorem find?_range_spec (p : Nat → Bool) :
    ∀ (n i : Nat), (List.range n).find? p = some i →
      p i = true ∧ i < n ∧ ∀ k, k < i → p k = false := by
  intro n
  induction n with
  | zero => intro i h; simp at h
  | succ n ih =>
    intro i h
    rw [List.range_succ, List.find?_append] at h
    cases hn : (List.range n).find? p with
    | some j =>
      rw [hn] at h
      rw [show (some j).or (List.find? p [n]) = some j from rfl] at h
      cases h
      obtain ⟨hp, hlt, hall⟩ := ih _ hn
      exact ⟨hp, Nat.lt_succ_of_lt hlt, hall⟩
    | none =>
      rw [hn] at h
      rw [Option.none_or] at h
      simp only [List.find?] at h
      split at h
      · next hp =>
        cases h
        refine ⟨hp, Nat.lt_succ_self n, ?_⟩
        intro k hk
        have hmem : k ∈ List.range n := List.mem_range.mpr hk
        have hnone := List.find?_eq_none.mp hn k hmem
        cases hpk : p k with
        | false => rfl
        | true => exact absurd hpk hnone
      · simp at h

theorem getD_cons_zero' (c : Line) (cs : List Line) : (c :: cs).getD 0 [] = c := rfl

theorem exactMatchesFrom_spec (file : List Line) :
    ∀ (ctx : List Line) (pos : Nat), pos + ctx.length ≤ file.length →
      exactMatchesFrom file ctx pos ≤ ctx.length ∧
      (∀ j, j < exactMatchesFrom file ctx pos →
        pyStrip (file.getD (pos + j) []) = ctx.getD j []) ∧
      (exactMatchesFrom file ctx pos < ctx.length →
        pyStrip (file.getD (pos + exactMatchesFrom file ctx pos) []) ≠
          ctx.getD (exactMatchesFrom file ctx pos) []) := by
  intro ctx
  induction ctx with
  | nil =>
    intro pos _
    refine ⟨le_rfl, ?_, ?_⟩
    · intro j hj; simp [exactMatchesFrom] at hj
    · intro hlt; simp [exactMatchesFrom] at hlt
  | cons c cs ih =>
    intro pos hle
    have hpos : pos < file.length := by
      simp only [List.length_cons] at hle
      omega
    have hunf : exactMatchesFrom file (c :: cs) pos =
        if pos < file.length then
          (if pyStrip (file.getD pos []) = c then 1 + exactMatchesFrom file cs (pos + 1)
          else 0)
        else exactMatchesFrom file cs (pos + 1) := rfl
    by_cases hm : pyStrip (file.getD pos []) = c
    · have hrun : exactMatchesFrom file (c :: cs) pos =
          1 + exactMatchesFrom file cs (pos + 1) := by
        rw [hunf, if_pos hpos, if_pos hm]
      obtain ⟨ihle, ihmatch, ihmis⟩ := ih (pos + 1) (by
        simp only [List.length_cons] at hle
        omega)
      rw [hrun]
      refine ⟨by simp only [List.length_cons]; omega, ?_, ?_⟩
      · intro j hj
        cases j with
        | zero =>
          rw [Nat.add_zero]
          exact hm
        | succ j =>
          have hj' : j < exactMatchesFrom file cs (pos + 1) := by omega
          have hres := ihmatch j hj'
          have ha : pos + (j + 1) = pos + 1 + j := by omega
          rw [ha, List.getD_cons_succ]
          exact hres
      · intro hlt
        simp only [List.length_cons] at hlt
        have hlt' : exactMatchesFrom file cs (pos + 1) < cs.length := by omega
        have hres := ihmis hlt'
        have harith : pos + (1 + exactMatchesFrom file cs (pos + 1)) =
            pos + 1 + exactMatchesFrom file cs (pos + 1) := by omega
        have hidx : 1 + exactMatchesFrom file cs (pos + 1) =
            exactMatchesFrom file cs (pos + 1) + 1 := by omega
        rw [harith, hidx, List.getD_cons_succ]
        exact hres
    · have hrun : exactMatchesFrom file (c :: cs) pos = 0 := by
        rw [hunf, if_pos hpos, if_neg hm]
      rw [hrun]
      refine ⟨Nat.zero_le _, ?_, ?_⟩
      · intro j hj; omega
      · intro _
        rw [Nat.add_zero]
        exact hm

theorem parseLoopF_fuel_irrel : ∀ (f : Nat) (ls : List Line) (g : Nat),
    ls.length ≤ f → ls.length ≤ g → parseLoopF f ls = parseLoopF g ls := by
  intro f
  induction f with
  | zero =>
    intro ls g hf _
    have hnil : ls = [] := List.eq_nil_of_length_eq_zero (Nat.le_zero.mp hf)
    subst hnil
    cases g <;> rfl
  | succ f ih =>
    intro ls g hf hg
    cases ls with
    | nil => cases g <;> rfl
    | cons l t =>
      cases g with
      | zero => simp at hg
      | succ g =>
        simp only [List.length_cons] at hf hg
        simp only [parseLoopF]
        split
        · exact ih t g (by omega) (by omega)
        · split
          · split
            · rw [ih (takeHunkBody t).2 g
                (le_trans (takeHunkBody_rest_le t) (by omega))
                (le_trans (takeHunkBody_rest_le t) (by omega))]
            · exact ih t g (by omega) (by omega)
          · exact ih t g (by omega) (by omega)

theorem capPattern_flatten_succ (n : Nat) :
    List.flatten (List.replicate (n + 1) [str "@@ -1 +1 @@", str "+x"]) =
      str "@@ -1 +1 @@" :: str "+x" ::
        List.flatten (List.replicate n [str "@@ -1 +1 @@", str "+x"]) := by
  rw [List.replicate_succ, List.flatten_cons]
  rfl

theorem parseLoopF_capPattern : ∀ (n fuel : Nat), 2 * n ≤ fuel →
    parseLoopF fuel (List.flatten (List.replicate n [str "@@ -1 +1 @@", str "+x"])) =
      List.replicate n capHunk := by
  intro n
  induction n with
  | zero =>
    intro fuel _
    rw [List.replicate_zero, List.flatten_nil, List.replicate_zero]
    cases fuel <;> rfl
  | succ n ih =>
    intro fuel hfuel
    rw [capPattern_flatten_succ]
    obtain ⟨f, rfl⟩ : ∃ f, fuel = f + 1 := ⟨fuel - 1, by omega⟩
    have hstep : parseLoopF (f + 1)
        (str "@@ -1 +1 @@" :: str "+x" ::
          List.flatten (List.replicate n [str "@@ -1 +1 @@", str "+x"])) =
        capHunk :: parseLoopF f
          (List.flatten (List.replicate n [str "@@ -1 +1 @@", str "+x"])) := by
      cases n with
      | zero => rfl
      | succ m =>
        rw [capPattern_flatten_succ]
        rfl
    rw [hstep, ih f (by omega), List.replicate_succ]

theorem capPattern_length (n : Nat) :
    (List.flatten (List.replicate n [str "@@ -1 +1 @@", str "+x"])).length = 2 * n := by
  induction n with
  | zero => rfl
  | succ n ih =>
    rw [capPattern_flatten_succ]
    simp only [List.length_cons, ih]
    omega

theorem capPatch_parse (n : Nat) (hn : 1 ≤ n) :
    parseUnifiedDiff (manyHunkPatch n) = List.replicate n capHunk := by
  have hsplit : splitNl (manyHunkPatch n) =
      List.flatten (List.replicate n [str "@@ -1 +1 @@", str "+x"]) := by
    unfold manyHunkPatch
    refine splitNl_joinNl _ ?_ ?_
    · obtain ⟨m, rfl⟩ : ∃ m, n = m + 1 := ⟨n - 1, by omega⟩
      rw [capPattern_flatten_succ]
      simp
    · intro l hl
      rcases List.mem_flatten.mp hl with ⟨pair, hpair, hmem⟩
      rw [List.eq_of_mem_replicate hpair] at hmem
      rcases List.mem_cons.mp hmem with h1 | h2
      · subst h1; decide
      · rcases List.mem_cons.mp h2 with h3 | h4
        · subst h3; decide
        · simp at h4
  unfold parseUnifiedDiff
  rw [hsplit, capPattern_length]
  exact parseLoopF_capPattern n (2 * n) le_rfl

theorem correctLineNumber_capHunk (l : List Line) : correctLineNumber l capHunk = 0 := by
  cases l with
  | nil => rfl
  | cons c t =>
    unfold correctLineNumber
    rw [if_pos]
    · rfl
    · refine ⟨le_refl 0, ?_⟩
      show (0 : Int) < ((c :: t).length : Int)
      simp only [List.length_cons]
      omega

theorem applySingle_capHunk (fs : FileStructure) (l : List Line) :
    applySingleHunkComplete fs l capHunk = str "x" :: l := by
  have hsplit : applySingleHunkComplete fs l capHunk =
      if capHunk.lines = [] then l
      else if (hunkAdded capHunk).any (fun x => isFunctionLine (pyStrip x) fs.language) then
        applyMethodAddition l capHunk fs (hunkAdded capHunk) (correctLineNumber l capHunk)
      else if (hunkAdded capHunk).any (fun x => isClassLine (pyStrip x) fs.language) then
        applyClassAddition l (hunkAdded capHunk) (correctLineNumber l capHunk)
      else applyNormalHunk l capHunk (correctLineNumber l capHunk) := rfl
  have hfn : ((hunkAdded capHunk).any fun x => isFunctionLine (pyStrip x) fs.language) = false := by
    cases fs.language <;> decide
  have hcl : ((hunkAdded capHunk).any fun x => isClassLine (pyStrip x) fs.language) = false := by
    cases fs.language <;> decide
  rw [hsplit, if_neg (by decide : ¬(capHunk.lines = [])), hfn, hcl]
  simp only [Bool.false_eq_true, if_false]
  rw [correctLineNumber_capHunk]
  rfl

theorem capPatch_apply (n : Nat) (hn : 1 ≤ n) :
    applyPatch (str "a") (manyHunkPatch n) =
      joinNl (List.replicate n (str "x") ++ [str "a"]) := by
  have hfold : ∀ (m : Nat) (init : List Line),
      List.foldl (fun ls h => applySingleHunkComplete (analyzeFileStructure (str "a")) ls h)
        init (List.replicate m capHunk) = List.replicate m (str "x") ++ init := by
    intro m
    induction m with
    | zero => intro init; rfl
    | succ m ih =>
      intro init
      rw [List.replicate_succ, List.foldl_cons, ih,
        applySingle_capHunk (analyzeFileStructure (str "a")) init,
        List.replicate_succ' (n := m)]
      rw [List.append_assoc]
      rfl
  unfold applyPatch
  rw [capPatch_parse n hn]
  rw [if_neg (by
    intro he
    have := congrArg List.length he
    simp at this
    omega)]
  unfold applyHunksComplete
  rw [show splitNl (str "a") = [str "a"] from rfl, hfold n [str "a"]]

theorem mem_enumFrom_of_getElem? :
    ∀ (ls : List Line) (s i : Nat) (l : Line), ls[i]? = some l →
      (s + i, l) ∈ ls.enumFrom s := by
  intro ls
  induction ls with
  | nil => intro s i l h; simp at h
  | cons x t ih =>
    intro s i l h
    cases i with
    | zero =>
      simp only [List.getElem?_cons_zero, Option.some_inj] at h
      subst h
      simp [List.enumFrom]
    | succ i =>
      simp only [List.getElem?_cons_succ] at h
      have := ih (s + 1) i l h
      have harith : s + (i + 1) = s + 1 + i := by omega
      rw [harith]
      simp only [List.enumFrom]
      exact List.mem_cons.mpr (Or.inr this)

theorem mem_enum_of_getElem? (ls : List Line) (i : Nat) (l : Line)
    (h : ls[i]? = some l) : (i, l) ∈ ls.enum := by
  have := mem_enumFrom_of_getElem? ls 0 i l h
  simpa [List.enum] using this

/-! ## Claims -/

/-- C1 (counterexample).  A two-hunk patch on `"a\nb"` whose first hunk's
replay cursor starts past the buffer end (`correctLineNumber` returns the
line count): the result differs from applying only the second hunk (so the
bad hunk was *not* skipped) and also differs from the original (so the whole
application was not abandoned in the claimed sense either — the bad hunk's
context lines were materialised instead). -/
theorem c1_counterexample :
    (parseUnifiedDiff (str "@@ -100,2 +100,2 @@\n x\n y\n@@ -1 +1,2 @@\n a\n+z")).length = 2 ∧
    correctLineNumber (splitNl (str "a\nb"))
      ((parseUnifiedDiff (str "@@ -100,2 +100,2 @@\n x\n y\n@@ -1 +1,2 @@\n a\n+z")).getD 0 default) =
      (splitNl (str "a\nb")).length ∧
    applyPatch (str "a\nb") (str "@@ -100,2 +100,2 @@\n x\n y\n@@ -1 +1,2 @@\n a\n+z") ≠
      applyPatch (str "a\nb") (str "@@ -1 +1,2 @@\n a\n+z") ∧
    applyPatch (str "a\nb") (str "@@ -100,2 +100,2 @@\n x\n y\n@@ -1 +1,2 @@\n a\n+z") ≠
      str "a\nb" := by
  decide

/-- C1 (amended).  A hunk whose replay cursor starts past the last line never
raises and is never skipped: every context or add line materialises its own
text at the end of the buffer and every removal is a no-op, after which the
hunk loop simply continues with the next hunk (no partial marker exists —
`apply_patch` returns a bare string). -/
theorem c1_past_end_hunk_not_skipped (lines : List Line) (h : Hunk) :
    applyNormalHunk lines h lines.length =
      lines ++ h.lines.filterMap (fun l =>
        match l with
        | [] => none
        | op :: content => if op = ' ' ∨ op = '+' then some content else none) := by
  unfold applyNormalHunk
  rw [List.take_length, replayHunk_at_length]

/-- C4 (counterexample).  A single non-skipped hunk with two context lines
and no additions applied to a one-line file: the output has 3 lines, which
exceeds `len(original_lines) + added = 1`. -/
theorem c4_counterexample :
    (parseUnifiedDiff (str "@@ -100,2 +100,2 @@\n x\n y")).length = 1 ∧
    (hunkAdded ((parseUnifiedDiff (str "@@ -100,2 +100,2 @@\n x\n y")).getD 0 default)).length = 0 ∧
    (splitNl (str "a")).length = 1 ∧
    (splitNl (applyPatch (str "a") (str "@@ -100,2 +100,2 @@\n x\n y"))).length = 3 ∧
    ¬ ((splitNl (applyPatch (str "a") (str "@@ -100,2 +100,2 @@\n x\n y"))).length ≤
        (splitNl (str "a")).length +
          (hunkAdded ((parseUnifiedDiff (str "@@ -100,2 +100,2 @@\n x\n y")).getD 0 default)).length) := by
  decide

/-- C4 (amended).  Applying one hunk never shrinks the buffer below
`len - removed`, and never grows it beyond `len + added + context` — the
context summand is required because context lines whose cursor has run past
the buffer end are materialised as insertions; the claimed bound
`len + added` fails (see the counterexample). -/
theorem c4_single_hunk_length_bounds (fs : FileStructure) (lines : List Line) (h : Hunk) :
    lines.length - (hunkRemoved h).length ≤ (applySingleHunkComplete fs lines h).length ∧
    (applySingleHunkComplete fs lines h).length ≤
      lines.length + (hunkAdded h).length + (hunkContext h).length := by
  have hsplit : applySingleHunkComplete fs lines h =
      if h.lines = [] then lines
      else if (hunkAdded h).any (fun l => isFunctionLine (pyStrip l) fs.language) then
        applyMethodAddition lines h fs (hunkAdded h) (correctLineNumber lines h)
      else if (hunkAdded h).any (fun l => isClassLine (pyStrip l) fs.language) then
        applyClassAddition lines (hunkAdded h) (correctLineNumber lines h)
      else applyNormalHunk lines h (correctLineNumber lines h) := rfl
  rw [hsplit]
  split
  · exact ⟨Nat.sub_le _ _, by omega⟩
  · split
    · rw [applyMethodAddition_length]
      omega
    · split
      · rw [applyClassAddition_length]
        omega
      · exact applyNormalHunk_length_bounds lines h _ (correctLineNumber_le lines h)

/-- C6 (counterexample).  A hunk with an out-of-range start whose context is
nowhere in the file: the effective start is `len(original_lines) = 1` (one
past the last line), not the claimed clamp `min(max(old_start,0), len-1) = 0`. -/
theorem c6_counterexample :
    applCtxLines ⟨99, 2, 99, 2, [str " x", str " y"]⟩ = [str "x", str "y"] ∧
    findIdxFrom (fun l => pyStrip l = str "x") [str "a"] 0 = none ∧
    findIdxFrom (fun l => ([str "x", str "y"].take 2).any (fun c => containsSub c (pyStrip l)))
      [str "a"] 0 = none ∧
    correctLineNumber [str "a"] ⟨99, 2, 99, 2, [str " x", str " y"]⟩ = 1 ∧
    ([str "a"] : List Line).length = 1 ∧
    clampedStart [str "a"] ⟨99, 2, 99, 2, [str " x", str " y"]⟩ = 0 ∧
    (1 : Nat) ≠ 0 := by
  decide

/-- C6 (amended).  When the recorded start is out of range and neither the
exact strip-equality search on the first context line nor the flexible
substring search finds a line, the effective start is `len(original_lines)`
(append at end of file) — it is exactly the value the claim forbids, and no
clamped original start is used. -/
theorem c6_fallback_is_eof (lines : List Line) (h : Hunk)
    (hrange : ¬ (0 ≤ h.old_start ∧ h.old_start < (lines.length : Int)))
    (h1 : findIdxFrom (fun l => pyStrip l = (applCtxLines h).headD []) lines 0 = none)
    (h2 : findIdxFrom
        (fun l => ((applCtxLines h).take 2).any fun c => containsSub c (pyStrip l))
        lines 0 = none) :
    correctLineNumber lines h = lines.length := by
  unfold correctLineNumber
  rw [if_neg hrange]
  cases hctx : applCtxLines h with
  | nil => rfl
  | cons c0 crest =>
    rw [hctx] at h1 h2
    simp only [List.headD_cons] at h1
    simp only [h1, h2]

/-- C2 (counterexample).  A patch with 101 hunk headers (`@@ -1 +1 @@` each,
one more than the documented default cap of 100): all 101 hunks are parsed
and the output differs from the original content — nothing caps the hunk
count and nothing returns the original unchanged. -/
theorem c2_counterexample :
    (parseUnifiedDiff (manyHunkPatch 101)).length = 101 ∧
    applyPatch (str "a") (manyHunkPatch 101) ≠ str "a" := by
  constructor
  · rw [capPatch_parse 101 (by norm_num)]
    simp
  · rw [capPatch_apply 101 (by norm_num)]
    decide

/-- C2 (amended).  `PatchApplicator._parse_unified_diff` enforces no hunk
cap: a patch with `n` hunk headers parses to all `n` hunks, and
`apply_patch` applies every one of them (each prepends its added line), so
the output is the fully modified content, never the original. -/
theorem c2_no_hunk_cap (n : Nat) (hn : 1 ≤ n) :
    parseUnifiedDiff (manyHunkPatch n) = List.replicate n capHunk ∧
    applyPatch (str "a") (manyHunkPatch n) =
      joinNl (List.replicate n (str "x") ++ [str "a"]) :=
  ⟨capPatch_parse n hn, capPatch_apply n hn⟩

/-- C2 (witness). -/
theorem c2_no_hunk_cap_witness :
    1 ≤ 101 ∧
    (parseUnifiedDiff (manyHunkPatch 101) = List.replicate 101 capHunk ∧
      applyPatch (str "a") (manyHunkPatch 101) =
        joinNl (List.replicate 101 (str "x") ++ [str "a"])) :=
  ⟨by norm_num, c2_no_hunk_cap 101 (by norm_num)⟩

/-- C8 (counterexample).  Three `Index:` headers count as more than 2 file
headers (`_is_multi_file_patch` returns true), but no individual `.py` file
can be extracted, so the analyzer returns an empty issue list: no severity-2
multi-file issue is emitted. -/
theorem c8_counterexample :
    isMultiFilePatch (str "Index: a\nIndex: b\nIndex: c") = true ∧
    analyzePatchQuality true false (str "Index: a\nIndex: b\nIndex: c") (str "x") = [] := by
  decide

/-- C8 (amended).  When the patch counts as multi-file **and** more than one
`.py` filename is extractable from `***`/`---`/`+++` headers, the analyzer
emits exactly one severity-2 non-auto-fixable issue (the multi-file warning;
the per-file entries are severity-1 INFO issues); with at most one
extractable filename it emits none at all. -/
theorem c8_multi_file_single_severity2 (scanD allowSys : Bool) (patch orig : List Char)
    (hmulti : isMultiFilePatch patch = true)
    (hfiles : 1 < (extractIndividualFiles patch).length) :
    (analyzePatchQuality scanD allowSys patch orig).countP
      (fun i => i.severity = 2 && !i.auto_fixable) = 1 := by
  unfold analyzePatchQuality
  rw [if_pos hmulti]
  have hsplit : analyzeMultiFilePatch patch =
      if 1 < (extractIndividualFiles patch).length then
        (⟨.warning, 0,
            str "Patch multi-fichiers détecté (" ++
              natDigits (extractIndividualFiles patch).length ++ str " fichiers)",
            some (str "Considérer séparer en patches individuels"), false, 2⟩ : PatchIssue) ::
          (extractIndividualFiles patch).map (fun fi =>
            (⟨.info, fi.line, str "Fichier détecté: " ++ fi.name, none, false, 1⟩ : PatchIssue))
      else [] := rfl
  rw [hsplit, if_pos hfiles]
  have key : ∀ (msg : List Char) (sug : Option (List Char)) (infos : List PatchIssue),
      (∀ a ∈ infos, a.severity = 1) →
      List.countP (fun i => i.severity = 2 && !i.auto_fixable)
        ((⟨.warning, 0, msg, sug, false, 2⟩ : PatchIssue) :: infos) = 1 := by
    intro msg sug infos hinfos
    rw [List.countP_cons]
    have h1 : List.countP (fun i => i.severity = 2 && !i.auto_fixable) infos = 0 := by
      rw [List.countP_eq_zero]
      intro a ha
      simp [hinfos a ha]
    rw [h1]
    simp
  refine key _ _ _ ?_
  intro a ha
  rcases List.mem_map.mp ha with ⟨fi, _, hfi⟩
  subst hfi
  rfl

/-- C8 (witness). -/
theorem c8_multi_file_single_severity2_witness :
    isMultiFilePatch (str "+++ mod_a.py\n+++ mod_b.py\n+++ mod_c.py") = true ∧
    1 < (extractIndividualFiles (str "+++ mod_a.py\n+++ mod_b.py\n+++ mod_c.py")).length ∧
    (analyzePatchQuality true false (str "+++ mod_a.py\n+++ mod_b.py\n+++ mod_c.py")
      (str "x")).countP (fun i => i.severity = 2 && !i.auto_fixable) = 1 :=
  ⟨by decide, by decide,
   c8_multi_file_single_severity2 true false
     (str "+++ mod_a.py\n+++ mod_b.py\n+++ mod_c.py") (str "x") (by decide) (by decide)⟩

/-- C9 (counterexample).  A patch that is detected as multi-file takes the
early-return branch of `analyze_patch_quality`, so its added
`os.system(...)` line produces **no** ERROR issue at all (with the default
configuration `allow_system_calls = False`). -/
theorem c9_counterexample :
    (splitNl (str "+++ mod_a.py\n+++ mod_b.py\n+++ mod_c.py\n+os.system('x')"))[3]? =
      some (str "+os.system('x')") ∧
    startsWithL (str "+") (str "+os.system('x')") = true ∧
    containsSub (str "os.system(") (lcLine (str "os.system('x')")) = true ∧
    ∀ i ∈ analyzePatchQuality true false
        (str "+++ mod_a.py\n+++ mod_b.py\n+++ mod_c.py\n+os.system('x')") (str "x"),
      i.itype ≠ IssueType.error := by
  decide

/-- C9 (amended).  For a patch **not** detected as multi-file, with dangerous
-pattern scanning on and system calls disallowed, an added line matching
`os.system(` (case-insensitively) makes the analyzer emit the severity-3
ERROR issue at that line; and the pipeline's produced content is identical
whatever `allow_system_calls` is — the issue never blocks content. -/
theorem c9_system_call_error (patch orig : List Char) (i : Nat) (l : Line)
    (hnotmulti : isMultiFilePatch patch = false)
    (hline : (splitNl patch)[i]? = some l)
    (hplus : startsWithL (str "+") l = true)
    (hsys : containsSub (str "os.system(") (lcLine l.tail) = true) :
    (⟨.error, i + 1, str "Appel système non autorisé détecté",
      some (str "Supprimer ou configurer l'autorisation"), false, 3⟩ : PatchIssue) ∈
      analyzePatchQuality true false patch orig ∧
    (processPatchCore true false patch orig).2 = (processPatchCore true true patch orig).2 := by
  refine ⟨?_, rfl⟩
  unfold analyzePatchQuality
  rw [if_neg (by simp [hnotmulti])]
  refine List.mem_append.mpr (Or.inr ?_)
  rw [if_pos rfl]
  have hsec : checkSecurityIssues false patch =
      securityPass1 (splitNl patch).enum ++
        (if !false then securityPass2 (splitNl patch).enum else []) := rfl
  rw [hsec, if_pos (show (!false) = true by decide)]
  refine List.mem_append.mpr (Or.inr ?_)
  unfold securityPass2
  refine List.mem_flatMap.mpr ⟨(i, l), mem_enum_of_getElem? (splitNl patch) i l hline, ?_⟩
  rw [if_pos hplus]
  refine List.mem_filterMap.mpr ⟨containsSub (str "os.system("), List.mem_cons_self _ _, ?_⟩
  rw [if_pos hsys]

/-- C9 (witness). -/
theorem c9_system_call_error_witness :
    ((⟨.error, 5, str "Appel système non autorisé détecté",
      some (str "Supprimer ou configurer l'autorisation"), false, 3⟩ : PatchIssue) ∈
      analyzePatchQuality true false
        (str "--- a.py\n+++ b.py\n@@ -1 +1,2 @@\n x\n+os.system('rm')") (str "x")) ∧
    (processPatchCore true false
        (str "--- a.py\n+++ b.py\n@@ -1 +1,2 @@\n x\n+os.system('rm')") (str "x")).2 =
      (processPatchCore true true
        (str "--- a.py\n+++ b.py\n@@ -1 +1,2 @@\n x\n+os.system('rm')") (str "x")).2 :=
  c9_system_call_error (str "--- a.py\n+++ b.py\n@@ -1 +1,2 @@\n x\n+os.system('rm')")
    (str "x") 4 (str "+os.system('rm')") (by decide) (by decide) (by decide) (by decide)

/-- C3 (counterexample).  A hunk whose recorded `old_start` is already
correct (0-based 0, context `a`/`b` found by `exactSearch` exactly at the
recorded 1-based position 1), yet the corrector rewrites the header
(`@@ -1 +1,2 @@` becomes `@@ -1,2 +1,3 @@`): the hunk is not byte-identical. -/
theorem c3_counterexample :
    ((parseUnifiedDiff (str "@@ -1 +1,2 @@\n a\n b\n+new")).getD 0 default).old_start = 0 ∧
    exactSearch [str "a", str "b"] (splitNl (str "a\nb")) = some 1 ∧
    correctDiffHeaders (str "@@ -1 +1,2 @@\n a\n b\n+new") (str "a\nb") ≠
      str "@@ -1 +1,2 @@\n a\n b\n+new" := by
  decide

/-- C3 (amended).  The corrector rewrites every header whose context it can
locate, whether or not `old_start` was already correct; the result is
byte-identical exactly when the original header already equals the canonical
rebuilt form `@@ -p,oc +p,nc @@suffix` for the located position and the
recomputed counts (hunk bodies are never touched, see C10). -/
theorem c3_canonical_header_fixed_point (header : Line) (rest origLines : List Line) (p : Nat)
    (hfound : findContextPosition (extractContextFromDiff rest) origLines = some p)
    (hcanon : rebuildHeader header p (calcLineCounts rest).1 (calcLineCounts rest).2 = header) :
    fixSingleHeader header rest origLines = (header, true) := by
  have hne : extractContextFromDiff rest ≠ [] := by
    intro he
    rw [he] at hfound
    simp [findContextPosition] at hfound
  have hsplit : fixSingleHeader header rest origLines =
      if extractContextFromDiff rest = [] then (header, false)
      else
        match findContextPosition (extractContextFromDiff rest) origLines with
        | some p =>
          (rebuildHeader header p (calcLineCounts rest).1 (calcLineCounts rest).2, true)
        | none => (header, false) := rfl
  rw [hsplit, if_neg hne]
  simp only [hfound, hcanon]

/-- C3 (witness). -/
theorem c3_canonical_header_fixed_point_witness :
    findContextPosition (extractContextFromDiff [str " a", str " b", str "+new"])
      (splitNl (str "a\nb")) = some 1 ∧
    fixSingleHeader (str "@@ -1,2 +1,3 @@") [str " a", str " b", str "+new"]
      (splitNl (str "a\nb")) = (str "@@ -1,2 +1,3 @@", true) :=
  ⟨by decide,
   c3_canonical_header_fixed_point (str "@@ -1,2 +1,3 @@") [str " a", str " b", str "+new"]
     (splitNl (str "a\nb")) 1 (by decide) (by decide)⟩

/-- C7 (counterexample).  A hunk whose context is found nowhere keeps its
original header unchanged: its recorded `old_count = 9` survives even though
the body holds only 2 context+remove lines — the input counts are kept while
disagreeing with the body. -/
theorem c7_counterexample :
    splitNl (correctDiffHeaders (str "@@ -5,9 +5,9 @@\n x\n y") (str "a")) =
      [str "@@ -5,9 +5,9 @@", str " x", str " y"] ∧
    ((parseUnifiedDiff (str "@@ -5,9 +5,9 @@\n x\n y")).getD 0 default).old_count = 9 ∧
    calcCountsGo [str " x", str " y"] = (2, 2) ∧
    (9 : Nat) ≠ 2 := by
  decide

/-- C7 (amended).  Counts are recomputed from the body (context+remove for
old, context+add for new, scanning up to the next `@@`, minimum 1 each)
**only when the context position is found**, in which case the header is
rebuilt with them; when no position is found the original header — its
possibly inconsistent counts included — is returned unchanged. -/
theorem c7_counts_recomputed_only_when_found (header : Line) (rest origLines : List Line) :
    fixSingleHeader header rest origLines =
      match findContextPosition (extractContextFromDiff rest) origLines with
      | some p =>
        (rebuildHeader header p
          (max 1 ((rest.takeWhile (fun l => !(startsWithL (str "@@") l))).countP
            (fun l => startsWithL (str " ") l || startsWithL (str "-") l)))
          (max 1 ((rest.takeWhile (fun l => !(startsWithL (str "@@") l))).countP
            (fun l => startsWithL (str " ") l || startsWithL (str "+") l))), true)
      | none => (header, false) := by
  have hcounts : ∀ ls : List Line, calcCountsGo ls =
      ((ls.takeWhile (fun l => !(startsWithL (str "@@") l))).countP
        (fun l => startsWithL (str " ") l || startsWithL (str "-") l),
       (ls.takeWhile (fun l => !(startsWithL (str "@@") l))).countP
        (fun l => startsWithL (str " ") l || startsWithL (str "+") l)) := by
    intro ls
    induction ls with
    | nil => rfl
    | cons l rest ih =>
      by_cases hl : startsWithL (str "@@") l
      · simp [calcCountsGo, hl, List.takeWhile_cons]
      · simp only [calcCountsGo, if_neg hl, ih, List.takeWhile_cons, hl,
          Bool.not_false, if_true, List.countP_cons, Bool.not_eq_true']
        rw [if_neg (by simp [hl])]
        rw [Prod.mk.injEq]
        constructor <;> omega
  have hsplit : fixSingleHeader header rest origLines =
      if extractContextFromDiff rest = [] then (header, false)
      else
        match findContextPosition (extractContextFromDiff rest) origLines with
        | some p =>
          (rebuildHeader header p (calcLineCounts rest).1 (calcLineCounts rest).2, true)
        | none => (header, false) := rfl
  rw [hsplit]
  by_cases hctx : extractContextFromDiff rest = []
  · rw [if_pos hctx]
    have hnone : findContextPosition (extractContextFromDiff rest) origLines = none := by
      rw [hctx]; rfl
    simp [hnone]
  · rw [if_neg hctx]
    cases hpos : findContextPosition (extractContextFromDiff rest) origLines with
    | none => simp [hpos]
    | some p => simp [hpos, calcLineCounts, hcounts]

/-- C10 (counterexample).  The `--- a.py` metadata line of the input patch
does not appear in the corrected patch at all: `_clean_diff_metadata`
deletes metadata lines instead of passing them through. -/
theorem c10_counterexample :
    (str "--- a.py") ∈ splitNl (str "--- a.py\n+++ b.py\n@@ -1 +1,2 @@\n x\n+y") ∧
    (str "--- a.py") ∉
      splitNl (correctDiffHeaders (str "--- a.py\n+++ b.py\n@@ -1 +1,2 @@\n x\n+y") (str "x")) := by
  decide

/-- C10 (amended).  The corrector first **deletes** every metadata line
(`--- `, `+++ `, `diff --git`, `index `, `new file`, `deleted file`) and then
rewrites only `@@` header lines: the corrected patch's lines are exactly the
per-line correction of the metadata-filtered input, and every surviving
non-`@@` line reappears unchanged at its (post-filter) position. -/
theorem c10_metadata_removed_bodies_kept (diff orig : List Char)
    (hne : (splitNl diff).filter (fun l => !(startsWithAny metaPrefixes l)) ≠ []) :
    splitNl (correctDiffHeaders diff orig) =
      correctLines (splitNl orig) ((splitNl diff).filter (fun l => !(startsWithAny metaPrefixes l))) ∧
    ∀ (i : Nat) (l : Line),
      ((splitNl diff).filter (fun l => !(startsWithAny metaPrefixes l)))[i]? = some l →
      startsWithL (str "@@") l = false →
      (splitNl (correctDiffHeaders diff orig))[i]? = some l := by
  set fl := (splitNl diff).filter (fun l => !(startsWithAny metaPrefixes l)) with hfl
  have hflno : ∀ l ∈ fl, '\n' ∉ l := by
    intro l hl
    exact not_newline_mem_splitNl diff l (List.mem_of_mem_filter hl)
  have hclean : splitNl (cleanDiffMetadata diff) = fl := by
    unfold cleanDiffMetadata
    exact splitNl_joinNl fl hne hflno
  have hcorr : splitNl (correctDiffHeaders diff orig) = correctLines (splitNl orig) fl := by
    unfold correctDiffHeaders
    rw [hclean]
    refine splitNl_joinNl _ ?_ (correctLines_no_newline (splitNl orig) fl hflno)
    intro he
    have := correctLines_length (splitNl orig) fl
    rw [he] at this
    exact hne (List.eq_nil_of_length_eq_zero this.symm)
  refine ⟨hcorr, ?_⟩
  intro i l hget hnot
  rw [hcorr]
  exact correctLines_getElem?_of_not_header (splitNl orig) fl i l hget hnot

/-- C10 (witness). -/
theorem c10_metadata_removed_bodies_kept_witness :
    ((splitNl (str "--- a.py\n+++ b.py\n@@ -1 +1,2 @@\n x\n+y")).filter
      (fun l => !(startsWithAny metaPrefixes l)) ≠ []) ∧
    splitNl (correctDiffHeaders (str "--- a.py\n+++ b.py\n@@ -1 +1,2 @@\n x\n+y") (str "x")) =
      correctLines (splitNl (str "x"))
        ((splitNl (str "--- a.py\n+++ b.py\n@@ -1 +1,2 @@\n x\n+y")).filter
          (fun l => !(startsWithAny metaPrefixes l))) :=
  ⟨by decide,
   (c10_metadata_removed_bodies_kept (str "--- a.py\n+++ b.py\n@@ -1 +1,2 @@\n x\n+y")
     (str "x") (by decide)).1⟩

/-- C5 (counterexample).  The claimed positional counting accepts offset 0
(4 of 5 context lines match positionally, and `4 ≥ max(2, 0.8·5)`), but the
source's `_exact_search` — which breaks at the first mismatch — finds
nothing on the same input. -/
theorem c5_counterexample :
    exactSearchClaim [str "a", str "b", str "c", str "d", str "e"]
      [str "a", str "q", str "c", str "d", str "e"] = some 0 ∧
    positionalMatchCount [str "a", str "b", str "c", str "d", str "e"]
      [str "a", str "q", str "c", str "d", str "e"] 0 = 4 ∧
    exactThresholdOK 4 5 = true ∧
    exactSearch [str "a", str "b", str "c", str "d", str "e"]
      [str "a", str "q", str "c", str "d", str "e"] = none := by
  decide

/-- C5 (amended).  `_exact_search` counts only the **contiguous run** of
matches starting at each offset (the inner loop breaks at the first
mismatch): an accepted result `p = i + 1` means the first
`exactMatchesFrom file ctx i` context lines all match consecutively at `i`,
the line right after the run (if the run is short of the full context)
mismatches, that run length reaches `max(2, 0.8·len)`, and no earlier offset
has a qualifying run (earliest-offset acceptance). -/
theorem c5_exact_search_contiguous (ctx file : List Line) (p : Nat)
    (h : exactSearch ctx file = some p) :
    ∃ i, p = i + 1 ∧ i + ctx.length ≤ file.length ∧
      exactThresholdOK (exactMatchesFrom file ctx i) ctx.length = true ∧
      (∀ k, k < i → exactThresholdOK (exactMatchesFrom file ctx k) ctx.length = false) ∧
      exactMatchesFrom file ctx i ≤ ctx.length ∧
      (∀ j, j < exactMatchesFrom file ctx i →
        pyStrip (file.getD (i + j) []) = ctx.getD j []) ∧
      (exactMatchesFrom file ctx i < ctx.length →
        pyStrip (file.getD (i + exactMatchesFrom file ctx i) []) ≠
          ctx.getD (exactMatchesFrom file ctx i) []) := by
  unfold exactSearch at h
  rw [Option.map_eq_some'] at h
  obtain ⟨i, hfind, hp⟩ := h
  obtain ⟨hpred, hlt, hearlier⟩ := find?_range_spec _ _ i hfind
  have hrange : i + ctx.length ≤ file.length := by omega
  obtain ⟨hle, hmatch, hmis⟩ := exactMatchesFrom_spec file ctx i hrange
  exact ⟨i, hp.symm, hrange, hpred, hearlier, hle, hmatch, hmis⟩

/-- C5 (witness). -/
theorem c5_exact_search_contiguous_witness :
    ∃ i, (1 : Nat) = i + 1 ∧
      i + ([str "a", str "b"] : List Line).length ≤ ([str "a", str "b"] : List Line).length ∧
      exactThresholdOK (exactMatchesFrom [str "a", str "b"] [str "a", str "b"] i) 2 = true ∧
      (∀ k, k < i →
        exactThresholdOK (exactMatchesFrom [str "a", str "b"] [str "a", str "b"] k) 2 = false) ∧
      exactMatchesFrom [str "a", str "b"] [str "a", str "b"] i ≤ 2 ∧
      (∀ j, j < exactMatchesFrom [str "a", str "b"] [str "a", str "b"] i →
        pyStrip (([str "a", str "b"] : List Line).getD (i + j) []) =
          ([str "a", str "b"] : List Line).getD j []) ∧
      (exactMatchesFrom [str "a", str "b"] [str "a", str "b"] i < 2 →
        pyStrip (([str "a", str "b"] : List Line).getD
            (i + exactMatchesFrom [str "a", str "b"] [str "a", str "b"] i) []) ≠
          ([str "a", str "b"] : List Line).getD
            (exactMatchesFrom [str "a", str "b"] [str "a", str "b"] i) []) :=
  c5_exact_search_contiguous [str "a", str "b"] [str "a", str "b"] 1 (by decide)

/-- C6 (witness). -/
theorem c6_fallback_is_eof_witness :
    ¬ ((0 : Int) ≤ 99 ∧ (99 : Int) < (([str "a"] : List Line).length : Int)) ∧
    correctLineNumber [str "a"] ⟨99, 2, 99, 2, [str " x", str " y"]⟩ =
      ([str "a"] : List Line).length :=
  ⟨by decide, c6_fallback_is_eof [str "a"] ⟨99, 2, 99, 2, [str " x", str " y"]⟩
    (by decide) (by decide) (by decide)⟩

end SmartPatch
